import Mathlib

/-!
A verification development for the `rekordboxFLAC2MP3` script.

The script mutates a parsed Rekordbox XML document: it creates a `_MP3`
mirror playlist for every non-mirror playlist, scans the collection for
FLAC tracks that exist on disk and are referenced by a playlist, clones
each such track with a fresh id and an `.mp3` location, routes a playlist
entry for the clone into the mirror of every referencing playlist, and
records one conversion job per source file.

Strings are modelled as `List Char`.  Machine-level collaborators (the
filesystem existence check) are passed in as a function `onDisk`.  The
script only runs on Windows, so `os.path.splitext` is modelled with the
`ntpath` separators (both `\` and `/`).  Element attributes that the
script reads unconditionally (`TrackID`, `Location`, playlist `Name`) are
modelled as required fields; `Entries`/`Key`/`Type` of a playlist node are
optional, and `str(node.get(...))` turns an absent attribute into the
literal string `"None"`, which `pystr` reproduces.
-/

/-- Boolean test that `s` starts with `p` (Python `str.startswith`). -/
def lstartsWith : List Char → List Char → Bool
  | _, [] => true
  | [], _ :: _ => false
  | c :: cs, p :: ps => c == p && lstartsWith cs ps

/-- Boolean test that `s` ends with `p` (Python `str.endswith`). -/
def lendsWith (s p : List Char) : Bool :=
  lstartsWith s.reverse p.reverse

/-- Fuelled worker for `replaceAll`.  One unit of fuel is spent per
produced chunk; since every step consumes at least one input character
(patterns are never empty at call sites), `length + 1` fuel is exact. -/
def replaceGo (pat rep : List Char) : Nat → List Char → List Char
  | 0, s => s
  | _ + 1, [] => []
  | f + 1, c :: rest =>
    if pat ≠ [] ∧ lstartsWith (c :: rest) pat then
      rep ++ replaceGo pat rep f (rest.drop (pat.length - 1))
    else
      c :: replaceGo pat rep f rest

/-- Python `str.replace pat rep`: leftmost, non-overlapping, single pass. -/
def replaceAll (pat rep : List Char) (s : List Char) : List Char :=
  replaceGo pat rep (s.length + 1) s

/-- `unescape_from_xml` from the script:
`input.replace('%20', ' ').replace('%26', '&').replace('%27', "'")`. -/
def unescape_from_xml (input : List Char) : List Char :=
  replaceAll "%27".data ['\''] (replaceAll "%26".data ['&'] (replaceAll "%20".data [' '] input))

/-- `escape_for_xml` from the script:
`input.replace(' ', '%20').replace('&', '%26').replace(",", "%27")`. -/
def escape_for_xml (input : List Char) : List Char :=
  replaceAll [','] "%27".data (replaceAll ['&'] "%26".data (replaceAll [' '] "%20".data input))

/-- The script's `LOCALHOST_PREFIX` constant, `'file://localhost/'`.
(Renamed: the original all-caps identifier is kept in a comment.) -/
def localhostPfx : List Char := "file://localhost/".data

/-- Index of the last character satisfying `p` (Python `str.rfind` family). -/
def rfindIdx (p : Char → Bool) : List Char → Option Nat
  | [] => none
  | c :: cs =>
    match rfindIdx p cs with
    | some i => some (i + 1)
    | none => if p c then some 0 else none

/-- `rfind` with Python's `-1` convention for "not found". -/
def rfindI (p : Char → Bool) (s : List Char) : Int :=
  match rfindIdx p s with
  | some i => (i : Int)
  | none => -1

/-- The split point of `ntpath.splitext` (`genericpath._splitext` with
`sep = '\\'`, `altsep = '/'`, `extsep = '.'`): the index of the last dot,
provided it lies after the last separator and some non-dot character
stands between them. -/
def splitextIdx (s : List Char) : Option Nat :=
  let sepI : Int := max (rfindI (fun c => c == '\\') s) (rfindI (fun c => c == '/') s)
  let dotI : Int := rfindI (fun c => c == '.') s
  if dotI > sepI then
    let a : Nat := (sepI + 1).toNat
    let d : Nat := dotI.toNat
    if ((s.drop a).take (d - a)).any (fun c => c != '.') then some d else none
  else none

/-- `os.path.splitext s` as the script uses it (ntpath flavour). -/
def splitextPair (s : List Char) : List Char × List Char :=
  match splitextIdx s with
  | some d => (s.take d, s.drop d)
  | none => (s, [])

/-- The root component of `os.path.splitext`. -/
def splitextRoot (s : List Char) : List Char := (splitextPair s).1

/-- The extension component of `os.path.splitext`. -/
def splitextExt (s : List Char) : List Char := (splitextPair s).2

/-- ASCII lower-casing of one character.  (`str.lower` is Unicode-aware in
Python; the script only compares the result against the ASCII literal
`'.flac'`, for which the ASCII mapping is exact.) -/
def lowCh (c : Char) : Char :=
  if 'A' ≤ c ∧ c ≤ 'Z' then Char.ofNat (c.toNat + 32) else c

/-- `str.lower` on a whole string (ASCII model, see `lowCh`). -/
def lowerStr (s : List Char) : List Char := s.map lowCh

/-- Fuelled base-10 digit printer (most significant first, `acc` holds the
already-produced tail). -/
def natToStrGo : Nat → Nat → List Char → List Char
  | 0, _, acc => acc
  | f + 1, n, acc =>
    if n < 10 then Char.ofNat (48 + n) :: acc
    else natToStrGo f (n / 10) (Char.ofNat (48 + n % 10) :: acc)

/-- Python `str` of a natural number. -/
def natToStr (n : Nat) : List Char := natToStrGo (n + 1) n []

/-- Python `str` of an `int` (the script applies `str` to `currId`). -/
def intToStr (n : Int) : List Char :=
  if n < 0 then '-' :: natToStr (-n).toNat else natToStr n.toNat

/-- `str(x)` for an optional attribute value: `str(None)` is `"None"`. -/
def pystr : Option (List Char) → List Char
  | some s => s
  | none => "None".data

/-- Lines 150–153 of the script: unescape the raw `Location`, then strip
the localhost prefix when present. -/
def decodeLoc (rawPath : List Char) : List Char :=
  let flacPath := unescape_from_xml rawPath
  if lstartsWith flacPath localhostPfx then flacPath.drop localhostPfx.length else flacPath

/-- A `TRACK` element of the collection.  `trackID`, `location`, `kind`,
`bitRate` are the four attributes the script writes on a clone; `meta`
holds every other attribute (copied verbatim by `copy.deepcopy`). -/
structure Track where
  trackID : List Char
  location : List Char
  kind : List Char
  bitRate : List Char
  meta : List (List Char × List Char)
deriving DecidableEq, Repr

/-- A playlist `NODE`: its `Name`, the optional `Entries`/`Key`/`Type`
attributes, and the ordered `Key` values of its `TRACK` children. -/
structure PlaylistNode where
  name : List Char
  entries : Option (List Char)
  key : Option (List Char)
  ptype : Option (List Char)
  tracks : List (List Char)
deriving DecidableEq, Repr

/-- The parsed document as the transformation consumes it: the
collection's `Entries` attribute (already through `int(...)`), its track
list, and the playlist section's node list. -/
structure Doc where
  colEntries : Int
  colTracks : List Track
  playlists : List PlaylistNode
deriving DecidableEq, Repr

/-- The `'_MP3'` mirror suffix. -/
def mirrorSfx : List Char := "_MP3".data

/-- The mirror node created at lines 123–127: `Name = mp3name`, and
`Entries`/`Key`/`Type` copied through `str(origPL.get(...))`, with an
empty track list. -/
def mkMirror (mp3name : List Char) (src : PlaylistNode) : PlaylistNode :=
  { name := mp3name
    entries := some (pystr src.entries)
    key := some (pystr src.key)
    ptype := some (pystr src.ptype)
    tracks := [] }

/-- One iteration of the mirror-creation loop (lines 107–127) for the
original playlist name `pname`, acting on the live playlist list `acc`.
The `none` branch of the name lookup cannot occur (every `pname` comes
from the names of `acc`'s prefix); in the source it would be an
`AttributeError`, here it is a no-op. -/
def mirrorStep (origNames : List (List Char)) (acc : List PlaylistNode)
    (pname : List Char) : List PlaylistNode :=
  if lendsWith pname mirrorSfx then acc
  else if origNames.contains (pname ++ mirrorSfx) then acc
  else
    match acc.find? (fun q => q.name == pname) with
    | some pl => acc ++ [mkMirror (pname ++ mirrorSfx) pl]
    | none => acc

/-- The whole mirror-creation pass: iterate over the snapshot of the
original playlist names, appending mirror nodes to the live list. -/
def mirrorPass (pls : List PlaylistNode) : List PlaylistNode :=
  (pls.map (fun pl => pl.name)).foldl (mirrorStep (pls.map (fun pl => pl.name))) pls

/-- First index satisfying `p` (the index of `playlists.find(...)`). -/
def lfindIdx (p : α → Bool) : List α → Option Nat
  | [] => none
  | a :: l => if p a then some 0 else (lfindIdx p l).map (fun i => i + 1)

/-- Replace the element at index `j` (out-of-range is the identity). -/
def updAt (j : Nat) (g : α → α) : List α → List α
  | [] => []
  | a :: l =>
    match j with
    | 0 => g a :: l
    | j' + 1 => a :: updAt j' g l

/-- `ET.SubElement(mp3list, 'TRACK'); newTrack.set('Key', cstr)`. -/
def appendKey (cstr : List Char) (pl : PlaylistNode) : PlaylistNode :=
  { pl with tracks := pl.tracks ++ [cstr] }

/-- The inner playlist loop (lines 164–179) for one collection track:
walk the playlist nodes by position (`pNodes` is a snapshot of node
references, and no node is added or removed during the track pass, so
positions are stable); whenever the node at position `i` currently
contains an entry keyed `origId`, look up the first node named
`name + '_MP3'` and append an entry keyed `cstr` to it.  A failed lookup
is the script's `AttributeError` on `ET.SubElement(None, ...)`, modelled
as `.error ()`.  Fuel is structural; `pls.length + 1` is always enough. -/
def innerLoop (origId cstr : List Char) :
    Nat → Nat → List PlaylistNode → Bool → Except Unit (Bool × List PlaylistNode)
  | 0, _, pls, inPl => .ok (inPl, pls)
  | f + 1, i, pls, inPl =>
    if h : i < pls.length then
      -- `pl` in the source is `pNodes[i]`, i.e. `pls.get ⟨i, h⟩`
      if (pls.get ⟨i, h⟩).tracks.contains origId then
        match lfindIdx (fun q => q.name == (pls.get ⟨i, h⟩).name ++ mirrorSfx) pls with
        | none => .error ()
        | some j => innerLoop origId cstr f (i + 1) (updAt j (appendKey cstr) pls) true
      else innerLoop origId cstr f (i + 1) pls inPl
    else .ok (inPl, pls)

/-- `flacToMp3[flacPath] = mp3Path`: Python dict assignment preserves the
position of an existing key and appends a new one. -/
def dictSet (k v : List Char) (d : List (List Char × List Char)) :
    List (List Char × List Char) :=
  if d.any (fun p => p.1 == k) then
    d.map (fun p => if p.1 == k then (k, v) else p)
  else d ++ [(k, v)]

/-- Lines 192–196: `copy.deepcopy(track)` followed by the four `set`
calls (`TrackID`, `Location`, `Kind`, `BitRate`). -/
def mkClone (t : Track) (c : Int) (mp3Path : List Char) : Track :=
  { t with
    trackID := intToStr c
    location := localhostPfx ++ escape_for_xml mp3Path
    kind := "MP3 File".data
    bitRate := "320".data }

/-- The mutable state of the track pass: the id counter, the live
collection child list, the live playlist nodes, and the job dict. -/
structure TState where
  currId : Int
  colTracks : List Track
  playlists : List PlaylistNode
  jobs : List (List Char × List Char)
deriving DecidableEq, Repr

/-- The body of the collection loop (lines 142–200) for one track.
Returns the new state together with the list of elements this iteration
appended to the collection (which the Python `for` will also visit). -/
def stepTrack (onDisk : List Char → Bool) (st : TState) (t : Track) :
    Except Unit (TState × List Track) :=
  -- line 146: skip unless the raw location's extension lowers to '.flac'
  if lowerStr (splitextExt t.location) ≠ ".flac".data then .ok (st, [])
  -- lines 150–155: `flacPath` is `decodeLoc t.location`; skip if absent
  else if ¬ onDisk (decodeLoc t.location) then .ok (st, [])
  else
    -- lines 161–179: membership scan and entry routing
    match innerLoop t.trackID (intToStr st.currId) (st.playlists.length + 1) 0 st.playlists false with
    | .error e => .error e
    | .ok (inPl, pls') =>
      if ¬ inPl then .ok ({ st with playlists := pls' }, [])
      else
        -- lines 186–200: `mp3Path` is the decoded path with extension `.mp3`
        .ok ({ currId := st.currId + 1
               colTracks := st.colTracks ++
                 [mkClone t st.currId (splitextRoot (decodeLoc t.location) ++ ".mp3".data)]
               playlists := pls'
               jobs := dictSet (decodeLoc t.location)
                 (splitextRoot (decodeLoc t.location) ++ ".mp3".data) st.jobs },
          [mkClone t st.currId (splitextRoot (decodeLoc t.location) ++ ".mp3".data)])

/-- Python's `for track in collection` iterates the live child list, so
elements appended during the loop are visited too: a worklist.  Fuel is
structural; `2 * length + 1` always suffices (`loopFuel_eq_fold`). -/
def trackLoopFuel (onDisk : List Char → Bool) :
    Nat → List Track → TState → Option (Except Unit TState)
  | 0, _, _ => none
  | _ + 1, [], st => some (.ok st)
  | f + 1, t :: rest, st =>
    match stepTrack onDisk st t with
    | .error e => some (.error e)
    | .ok (st', app) => trackLoopFuel onDisk f (rest ++ app) st'

/-- The same pass restricted to a fixed list of tracks, ignoring the
elements it appends (the proofs show the worklist run coincides with
this, because appended clones are skipped when revisited). -/
def foldStep (onDisk : List Char → Bool) : List Track → TState → Except Unit TState
  | [], st => .ok st
  | t :: ts, st =>
    match stepTrack onDisk st t with
    | .error e => .error e
    | .ok (st', _) => foldStep onDisk ts st'

/-- The state at line 142: `currId = int(collection.get('Entries')) + 1`,
the playlists already put through the mirror pass, an empty job dict. -/
def initState (d : Doc) : TState :=
  { currId := d.colEntries + 1
    colTracks := d.colTracks
    playlists := mirrorPass d.playlists
    jobs := [] }

/-- The whole in-memory transformation of `main` (lines 86–202): mirror
pass, track pass over the growing collection, and the final
`collection.set('Entries', str(currId - 1))`.  An uncaught Python
exception (the `None` mirror lookup) is `.error ()`: the program dies and
no output document exists. -/
def runMain (onDisk : List Char → Bool) (d : Doc) :
    Except Unit (Doc × List (List Char × List Char)) :=
  match trackLoopFuel onDisk (2 * d.colTracks.length + 1) d.colTracks (initState d) with
  | none => .error ()
  | some (.error _) => .error ()
  | some (.ok st) =>
    .ok ({ colEntries := st.currId - 1
           colTracks := st.colTracks
           playlists := st.playlists }, st.jobs)

deriving instance DecidableEq for Except

/-- `true` on a successful run. -/
def isOkE : Except Unit α → Bool
  | .ok _ => true
  | .error _ => false

/-! ### Declarative descriptions used in claim statements

These definitions restate, in one-shot form, what the pass does to a
well-formed document; the theorems below prove that the operational
definitions above coincide with them. -/

/-- Conversion condition for one original track, with playlist membership
read against the fixed post-mirror-pass playlist list `P0`: the raw
location has (case-insensitively) the `.flac` extension, the decoded path
exists on disk, and some playlist node currently references the track's
id.  (The proofs show that, for documents whose track ids are canonical
decimals bounded by the entries counter, the live membership test the
script performs agrees with this static one.) -/
def convCond (onDisk : List Char → Bool) (P0 : List PlaylistNode) (t : Track) : Bool :=
  (lowerStr (splitextExt t.location) == ".flac".data) &&
  onDisk (decodeLoc t.location) &&
  P0.any (fun pl => pl.tracks.contains t.trackID)

/-- The destination path of a track: decoded source with the extension
replaced by `.mp3`. -/
def mp3PathOf (t : Track) : List Char :=
  splitextRoot (decodeLoc t.location) ++ ".mp3".data

/-- The clones the pass appends to the collection, in original track
order, with ids allocated sequentially from `c`. -/
def clonesFor (onDisk : List Char → Bool) (P0 : List PlaylistNode) :
    List Track → Int → List Track
  | [], _ => []
  | t :: ts, c =>
    if convCond onDisk P0 t then
      mkClone t c (mp3PathOf t) :: clonesFor onDisk P0 ts (c + 1)
    else clonesFor onDisk P0 ts c

/-- The job dict after processing the given tracks, starting from `d`. -/
def jobsFor (onDisk : List Char → Bool) (P0 : List PlaylistNode) :
    List Track → List (List Char × List Char) → List (List Char × List Char)
  | [], d => d
  | t :: ts, d =>
    if convCond onDisk P0 t then
      jobsFor onDisk P0 ts (dictSet (decodeLoc t.location) (mp3PathOf t) d)
    else jobsFor onDisk P0 ts d

/-- The entry keys routed into the mirror of playlist `Q`: one key,
`str` of the freshly allocated id, per converted track that `Q`
references, in collection order. -/
def keysForQ (onDisk : List Char → Bool) (P0 : List PlaylistNode) (Q : PlaylistNode) :
    List Track → Int → List (List Char)
  | [], _ => []
  | t :: ts, c =>
    if convCond onDisk P0 t then
      (if Q.tracks.contains t.trackID then [intToStr c] else []) ++
        keysForQ onDisk P0 Q ts (c + 1)
    else keysForQ onDisk P0 Q ts c

/-- Worker for `feedsB`: `r` counts the indices still to inspect. -/
def feedsFrom (P0 : List PlaylistNode) (origId : List Char) : Nat → Nat → Nat → Bool
  | 0, _, _ => false
  | r + 1, i, j =>
    (match P0[i]? with
     | some pl => pl.tracks.contains origId &&
         (lfindIdx (fun q => q.name == pl.name ++ mirrorSfx) P0 == some j)
     | none => false) || feedsFrom P0 origId r (i + 1) j

/-- `true` when some index `idx ≥ i` of `P0` references `origId` and the
first node named after `idx`'s mirror sits at index `j`.  This is the
routing relation of the inner playlist loop. -/
def feedsB (P0 : List PlaylistNode) (origId : List Char) (i j : Nat) : Bool :=
  feedsFrom P0 origId (P0.length - i) i j

/-- Per-mirror-index entry keys: like `keysForQ` but addressed by the
index `j` of the receiving node. -/
def keysSpec (onDisk : List Char → Bool) (P0 : List PlaylistNode) (j : Nat) :
    List Track → Int → List (List Char)
  | [], _ => []
  | t :: ts, c =>
    if convCond onDisk P0 t then
      (if feedsB P0 t.trackID 0 j then [intToStr c] else []) ++
        keysSpec onDisk P0 j ts (c + 1)
    else keysSpec onDisk P0 j ts c

/-- Worker for `allFoundB`: `r` counts the indices still to inspect. -/
def allFoundFrom (P0 : List PlaylistNode) (origId : List Char) : Nat → Nat → Bool
  | 0, _ => true
  | r + 1, i =>
    (match P0[i]? with
     | some pl => !pl.tracks.contains origId ||
         (lfindIdx (fun q => q.name == pl.name ++ mirrorSfx) P0).isSome
     | none => true) && allFoundFrom P0 origId r (i + 1)

/-- Whether, from index `i` on, every node of `P0` that references
`origId` has a mirror node to route into.  The inner loop crashes
exactly when this fails. -/
def allFoundB (P0 : List PlaylistNode) (origId : List Char) (i : Nat) : Bool :=
  allFoundFrom P0 origId (P0.length - i) i

/-- Worker for `anyRefB`: `r` counts the indices still to inspect. -/
def anyRefFrom (P0 : List PlaylistNode) (origId : List Char) : Nat → Nat → Bool
  | 0, _ => false
  | r + 1, i =>
    (match P0[i]? with
     | some pl => pl.tracks.contains origId
     | none => false) || anyRefFrom P0 origId r (i + 1)

/-- Whether some node of `P0` at index `≥ i` references `origId`. -/
def anyRefB (P0 : List PlaylistNode) (origId : List Char) (i : Nat) : Bool :=
  anyRefFrom P0 origId (P0.length - i) i

/-- A track id is `low` for the entries counter `e` when it is the
canonical decimal of some integer in `[1, e]` — the data-model
precondition "ids are dense from 1" gives this. -/
def lowId (e : Int) (s : List Char) : Prop :=
  ∃ k : Int, 1 ≤ k ∧ k ≤ e ∧ s = intToStr k

/-- A key is `high` when it prints an integer above the entries counter:
the shape of every key the pass itself appends. -/
def highKey (e : Int) (s : List Char) : Prop :=
  ∃ m : Int, e + 1 ≤ m ∧ s = intToStr m

/-- Relation between the live playlist list and the fixed post-mirror
list `P0`: same length, and node `j` is node `j` of `P0` with some list
`f j` of high keys appended to its entries. -/
def PState (e : Int) (P0 : List PlaylistNode) (pls : List PlaylistNode)
    (f : Nat → List (List Char)) : Prop :=
  pls.length = P0.length ∧
  (∀ j, pls[j]? = (P0[j]?).map (fun (q : PlaylistNode) => { q with tracks := q.tracks ++ f j })) ∧
  (∀ j, ∀ s ∈ f j, highKey e s)

/-- Worklist weight: a pending `.flac`-named element may spawn one more
pending element, everything else is consumed outright. -/
def trackWeight (t : Track) : Nat :=
  if lowerStr (splitextExt t.location) == ".flac".data then 2 else 1

/-- Total weight of the pending worklist: an upper bound on the number
of loop iterations still to come. -/
def measureW (ts : List Track) : Nat := (ts.map trackWeight).sum

/-! ### The untyped-element front end (for the structural-error claim)

`main` never checks which sections the document has: it reaches them by
hard-coded child positions.  `playlists = root[2][0]` at line 90 runs
first; the mirror pass (lines 107–127) then mutates the playlist
folder; only afterwards are `collection = root[1]` (line 132) and
`int(collection.get('Entries'))` (line 140) evaluated.  To settle what
happens on structurally deficient documents, the model below re-runs
the whole of `main` over untyped elements (tag, attribute dict, child
list), exactly as ElementTree presents them, and an uncaught exception
carries the document state at the moment it is raised. -/

/-- An XML element as ElementTree presents it: tag, attribute dict (in
document order) and child list. -/
inductive XElem where
  | mk (tag : List Char) (attrs : List (List Char × List Char)) (children : List XElem)

/-- The element's tag. -/
def XElem.tag : XElem → List Char
  | .mk t _ _ => t

/-- The element's attribute dict, in document order. -/
def XElem.attrs : XElem → List (List Char × List Char)
  | .mk _ a _ => a

/-- The element's child list. -/
def XElem.children : XElem → List XElem
  | .mk _ _ c => c

/-- `element.get(k)`: attribute lookup, `None` when absent. -/
def xget (k : List Char) (e : XElem) : Option (List Char) :=
  (e.attrs.find? (fun p => p.1 == k)).map (fun p => p.2)

/-- `element.set(k, v)`: dict assignment — replace in place when the key
is present, append otherwise. -/
def xset (k v : List Char) (e : XElem) : XElem :=
  .mk e.tag (dictSet k v e.attrs) e.children

/-- `ET.SubElement(e, …)` / `e.append(…)`: add a child at the end. -/
def xappend (c : XElem) (e : XElem) : XElem :=
  .mk e.tag e.attrs (e.children ++ [c])

/-- Value of a nonempty run of decimal digits (`acc` holds the prefix). -/
def digitsToNatGo : List Char → Nat → Option Nat
  | [], acc => some acc
  | c :: cs, acc =>
    if '0' ≤ c ∧ c ≤ '9' then digitsToNatGo cs (acc * 10 + (c.toNat - 48))
    else none

/-- A nonempty all-digit string to its value, `none` otherwise. -/
def digitsToNat : List Char → Option Nat
  | [] => none
  | cs => digitsToNatGo cs 0

/-- Strip surrounding ASCII spaces. -/
def stripSpaces (s : List Char) : List Char :=
  ((s.dropWhile (fun c => c == ' ')).reverse.dropWhile (fun c => c == ' ')).reverse

/-- `int(s)` for the strings line 140 can meet: surrounding spaces, an
optional sign, then a nonempty run of decimal digits; anything else is a
`ValueError`.  (Python's `int` also accepts other whitespace kinds,
underscore grouping and non-ASCII digits; the claim only needs the
`None`/non-numeric failure branch.) -/
def parsePyInt (s : List Char) : Option Int :=
  match stripSpaces s with
  | '-' :: rest => (digitsToNat rest).map (fun n => -(n : Int))
  | '+' :: rest => (digitsToNat rest).map (fun n => (n : Int))
  | t => (digitsToNat t).map (fun n => (n : Int))

/-- Lines 123–127 on raw elements: `SubElement(playlists, 'NODE')` and
the four `set` calls, each value through `str(origPL.get(…))`. -/
def mkMirrorX (mp3name : List Char) (src : XElem) : XElem :=
  .mk "NODE".data
    [("Name".data, mp3name),
     ("Entries".data, pystr (xget "Entries".data src)),
     ("Key".data, pystr (xget "Key".data src)),
     ("Type".data, pystr (xget "Type".data src))]
    []

/-- One iteration of the mirror loop (lines 107–127) on the live folder,
for one snapshot name (`None` when the node had no `Name` attribute).
On an uncaught exception the error carries the folder at that moment:
`None.endswith` (line 109) dies with the folder untouched, and a failed
source lookup dies at `origPL.get` (line 125) after `SubElement` and
`set('Name', …)` (lines 123–124) already added a node carrying only its
name.  (That last branch is unreachable from line 90: every snapshot
name names a node of the live folder, which only grows.) -/
def mirrorStepX (origNames : List (Option (List Char))) (folder : XElem)
    (pname? : Option (List Char)) : Except XElem XElem :=
  match pname? with
  | none => .error folder
  | some pname =>
    if lendsWith pname mirrorSfx then .ok folder
    else if origNames.contains (some (pname ++ mirrorSfx)) then .ok folder
    else
      match folder.children.find? (fun q => xget "Name".data q == some pname) with
      | some pl => .ok (xappend (mkMirrorX (pname ++ mirrorSfx) pl) folder)
      | none => .error (xappend (.mk "NODE".data [("Name".data, pname ++ mirrorSfx)] []) folder)

/-- The whole mirror loop, over the snapshot of names taken at
lines 94–102.  (Lines 97–102 also snapshot the playlist id lists into
`origPlaylistIdLists`; those reads cannot fail and the list is never
used again, so it is not modelled.) -/
def mirrorLoopX (origNames : List (Option (List Char))) :
    List (Option (List Char)) → XElem → Except XElem XElem
  | [], folder => .ok folder
  | p :: rest, folder =>
    match mirrorStepX origNames folder p with
    | .error f => .error f
    | .ok f => mirrorLoopX origNames rest f

/-- The inner playlist loop (lines 164–179) on raw elements: walk the
folder's nodes by position (`pNodes` is the fixed list those positions
hold, and the folder's child list does not change during the track
pass); whenever node `i` has a child keyed `origId`, look up the first
node named `name + '_MP3'` and append a `TRACK` child keyed `cstr` to
it.  A referencing node without a `Name` attribute dies at
`pname + '_MP3'` (line 175), a failed mirror lookup at
`ET.SubElement(None, …)` (line 178); both carry the folder at that
moment.  Fuel is structural; `children.length + 1` is always enough. -/
def innerLoopX (origId cstr : List Char) :
    Nat → Nat → XElem → Bool → Except XElem (Bool × XElem)
  | 0, _, folder, inPl => .ok (inPl, folder)
  | f + 1, i, folder, inPl =>
    match folder.children[i]? with
    | none => .ok (inPl, folder)
    | some pl =>
      if pl.children.any (fun c => xget "Key".data c == some origId) then
        match xget "Name".data pl with
        | none => .error folder
        | some pname =>
          match lfindIdx (fun q => xget "Name".data q == some (pname ++ mirrorSfx))
              folder.children with
          | none => .error folder
          | some j =>
            innerLoopX origId cstr f (i + 1)
              (.mk folder.tag folder.attrs
                (updAt j (xappend (.mk "TRACK".data [("Key".data, cstr)] []))
                  folder.children))
              true
      else innerLoopX origId cstr f (i + 1) folder inPl

/-- The mutable state of the raw track pass: the id counter, the live
playlist folder, the live collection child list and the job dict. -/
structure XTState where
  currId : Int
  folder : XElem
  collChildren : List XElem
  jobs : List (List Char × List Char)

/-- The body of the collection loop (lines 142–200) for one element of
the live child list, on raw elements.  An element without a `Location`
dies at `os.path.splitext(None)` (line 146) and one without a `TrackID`
at the search-string concatenation (line 165); the error carries the
state at death. -/
def stepTrackX (onDisk : List Char → Bool) (st : XTState) (track : XElem) :
    Except XTState (XTState × List XElem) :=
  match xget "Location".data track with
  | none => .error st
  | some rawPath =>
    -- line 146
    if lowerStr (splitextExt rawPath) ≠ ".flac".data then .ok (st, [])
    -- lines 150–157
    else if ¬ onDisk (decodeLoc rawPath) then .ok (st, [])
    else
      match xget "TrackID".data track with
      | none => .error st
      | some origId =>
        match innerLoopX origId (intToStr st.currId) (st.folder.children.length + 1) 0
            st.folder false with
        | .error f => .error { st with folder := f }
        | .ok (inPl, f1) =>
          if ¬ inPl then .ok ({ st with folder := f1 }, [])
          else
            -- lines 186–197: job entry; deepcopy; set TrackID, Location,
            -- Kind, BitRate in source order; append to the collection
            .ok ({ currId := st.currId + 1
                   folder := f1
                   collChildren := st.collChildren ++
                     [xset "BitRate".data "320".data
                       (xset "Kind".data "MP3 File".data
                         (xset "Location".data
                           (localhostPfx ++ escape_for_xml
                             (splitextRoot (decodeLoc rawPath) ++ ".mp3".data))
                           (xset "TrackID".data (intToStr st.currId) track)))]
                   jobs := dictSet (decodeLoc rawPath)
                     (splitextRoot (decodeLoc rawPath) ++ ".mp3".data) st.jobs },
              [xset "BitRate".data "320".data
                (xset "Kind".data "MP3 File".data
                  (xset "Location".data
                    (localhostPfx ++ escape_for_xml
                      (splitextRoot (decodeLoc rawPath) ++ ".mp3".data))
                    (xset "TrackID".data (intToStr st.currId) track)))])

/-- The live-list iteration of the raw track pass (worklist form, as in
`trackLoopFuel`). -/
def trackLoopX (onDisk : List Char → Bool) :
    Nat → List XElem → XTState → Option (Except XTState XTState)
  | 0, _, _ => none
  | _ + 1, [], st => some (.ok st)
  | f + 1, t :: rest, st =>
    match stepTrackX onDisk st t with
    | .error st' => some (.error st')
    | .ok (st', app) => trackLoopX onDisk f (rest ++ app) st'

/-- Write the (possibly mutated) playlist folder back to `root[2][0]`. -/
def putFolder (root f : XElem) : XElem :=
  .mk root.tag root.attrs
    (updAt 2 (fun s2 => .mk s2.tag s2.attrs (updAt 0 (fun _ => f) s2.children))
      root.children)

/-- Write the (possibly mutated) collection element back to `root[1]`. -/
def putColl (root c : XElem) : XElem :=
  .mk root.tag root.attrs (updAt 1 (fun _ => c) root.children)

/-- The whole of `main` (lines 86–202) on a raw parsed document, in
source order: `playlists = root[2][0]` (line 90) — `IndexError` before
anything else on a short root or a childless third child; the read-only
name snapshot (lines 94–104); the mutating mirror pass (lines 107–127);
`collection = root[1]` (line 132) — it cannot fail once line 90
succeeded, since the root then has at least three children;
`int(collection.get('Entries'))` (line 140) — `TypeError` on a missing
attribute, `ValueError` on a non-numeric one, in either case after the
mirror pass has already mutated the folder; the live-list track pass
(lines 142–200); and the final `Entries` write (line 202).  The result
carries the final document on success and, on an uncaught exception,
the document as it stood when the exception was raised. -/
def mainX (onDisk : List Char → Bool) (root : XElem) : Except XElem XElem :=
  match root.children[2]? with
  | none => .error root
  | some s2 =>
    match s2.children[0]? with
    | none => .error root
    | some folder0 =>
      match mirrorLoopX (folder0.children.map (xget "Name".data))
          (folder0.children.map (xget "Name".data)) folder0 with
      | .error f => .error (putFolder root f)
      | .ok f1 =>
        match (putFolder root f1).children[1]? with
        | none => .error (putFolder root f1)   -- unreachable: the root has three or more children here
        | some coll =>
          match (xget "Entries".data coll).bind parsePyInt with
          | none => .error (putFolder root f1)
          | some e =>
            match trackLoopX onDisk (2 * coll.children.length + 1) coll.children
                { currId := e + 1, folder := f1, collChildren := coll.children,
                  jobs := [] } with
            | none => .error (putFolder root f1)  -- fuel cannot run out: clones carry mp3 locations
            | some (.error st) =>
                .error (putColl (putFolder root st.folder)
                  (.mk coll.tag coll.attrs st.collChildren))
            | some (.ok st) =>
                .ok (putColl (putFolder root st.folder)
                  (xset "Entries".data (intToStr (st.currId - 1))
                    (.mk coll.tag coll.attrs st.collChildren)))

/-- `true` when the raw run completed (an output document exists). -/
def isOkX : Except XElem XElem → Bool
  | .ok _ => true
  | .error _ => false

/-- The document the run ends with: the output on success, the state at
death on an uncaught exception. -/
def finalDoc : Except XElem XElem → XElem
  | .ok r => r
  | .error r => r

/-- Number of nodes in the playlist folder `root[2][0]` (0 when the
position is absent). -/
def folderSize (root : XElem) : Nat :=
  match root.children[2]? with
  | none => 0
  | some s2 =>
    match s2.children[0]? with
    | none => 0
    | some f => f.children.length

/-- `true` when some child of the root carries the given tag. -/
def hasSection (tg : List Char) (root : XElem) : Bool :=
  root.children.any (fun s => s.tag == tg)

/-- Structural counterexample (a): the standard `DJ_PLAYLISTS` root with
the `PLAYLISTS` section replaced by a second `COLLECTION` — the
document has no `PLAYLISTS` section at all, yet `root[2][0]` happily
returns the second collection's first `TRACK`, the run finds zero
playlists, skips every track and completes, writing output. -/
def cex6aRoot : XElem :=
  .mk "DJ_PLAYLISTS".data [("Version".data, "1.0.0".data)]
    [.mk "PRODUCT".data [("Name".data, "rekordbox".data)] [],
     .mk "COLLECTION".data [("Entries".data, "1".data)]
       [.mk "TRACK".data
         [("TrackID".data, "1".data),
          ("Location".data, "file://localhost/C:/a.flac".data)] []],
     .mk "COLLECTION".data [("Entries".data, "1".data)]
       [.mk "TRACK".data
         [("TrackID".data, "1".data),
          ("Location".data, "file://localhost/C:/a.flac".data)] []]]

/-- Disk oracle for `cex6aRoot`: the FLAC exists. -/
def cex6aDisk : List Char → Bool := fun p => p == "C:/a.flac".data

/-- Structural counterexample (b): a root with no `COLLECTION` section
but a well-formed `PLAYLISTS` section in third position.  Line 90
succeeds, the mirror pass creates `A_MP3`, and only then does
`int(collection.get('Entries'))` on the attribute-less second child
raise — the document is already mutated when the run dies. -/
def cex6bRoot : XElem :=
  .mk "DJ_PLAYLISTS".data [("Version".data, "1.0.0".data)]
    [.mk "PRODUCT".data [("Name".data, "rekordbox".data)] [],
     .mk "PRODUCT".data [] [],
     .mk "PLAYLISTS".data []
       [.mk "NODE".data [("Type".data, "0".data), ("Name".data, "ROOT".data)]
         [.mk "NODE".data
           [("Name".data, "A".data), ("Entries".data, "1".data),
            ("Key".data, "5".data), ("Type".data, "1".data)]
           [.mk "TRACK".data [("Key".data, "1".data)] []]]]]

/-- The standard layout with the `PLAYLISTS` section removed: only two
children remain under the root.  (Removing the `COLLECTION` instead
shifts the remaining children and again leaves two.) -/
def cut6Root : XElem :=
  .mk "DJ_PLAYLISTS".data []
    [.mk "PRODUCT".data [] [],
     .mk "COLLECTION".data [("Entries".data, "1".data)]
       [.mk "TRACK".data
         [("TrackID".data, "1".data),
          ("Location".data, "file://localhost/C:/a.flac".data)] []]]

/-- The house scenario as a raw parsed document (same data as
`houseDoc`); the sanity checks below confirm the raw run agrees with
the typed pipeline on it. -/
def houseXRoot : XElem :=
  .mk "DJ_PLAYLISTS".data [("Version".data, "1.0.0".data)]
    [.mk "PRODUCT".data [("Name".data, "rekordbox".data)] [],
     .mk "COLLECTION".data [("Entries".data, "1".data)]
       [.mk "TRACK".data
         [("TrackID".data, "1".data),
          ("Location".data, "file://localhost/C:/m/song.flac".data),
          ("Kind".data, "FLAC File".data),
          ("BitRate".data, "1411".data),
          ("Name".data, "Song".data)] []],
     .mk "PLAYLISTS".data []
       [.mk "NODE".data [("Type".data, "0".data), ("Name".data, "ROOT".data)]
         [.mk "NODE".data
           [("Name".data, "House".data), ("Entries".data, "1".data),
            ("Key".data, "7".data), ("Type".data, "1".data)]
           [.mk "TRACK".data [("Key".data, "1".data)] []]]]]

/-! ### Single-pass forms of the path codec (for the codec claim) -/

/-- Apply `f` to each character and concatenate the results. -/
def mapChars (f : Char → List Char) : List Char → List Char
  | [] => []
  | c :: cs => f c ++ mapChars f cs

/-- The character table of `escape_for_xml`, as the spec describes it:
space, ampersand and comma become `%20`, `%26`, `%27`; everything else
passes through. -/
def escCharSpec (c : Char) : List Char :=
  if c = ' ' then "%20".data
  else if c = '&' then "%26".data
  else if c = ',' then "%27".data
  else [c]

/-- Single left-to-right scan replacing exactly the three tokens `%20`,
`%26`, `%27` by space, ampersand, apostrophe; every other character
passes through.  This is the spec's reading of `unescape_from_xml`. -/
def unescScan : List Char → List Char
  | '%' :: '2' :: '0' :: rest => ' ' :: unescScan rest
  | '%' :: '2' :: '6' :: rest => '&' :: unescScan rest
  | '%' :: '2' :: '7' :: rest => '\'' :: unescScan rest
  | c :: rest => c :: unescScan rest
  | [] => []

/-! ### Concrete documents for scenarios, witnesses and counterexamples -/

def houseTrack : Track :=
  { trackID := "1".data
    location := "file://localhost/C:/m/song.flac".data
    kind := "FLAC File".data
    bitRate := "1411".data
    meta := [("Name".data, "Song".data)] }

def houseDoc : Doc :=
  { colEntries := 1
    colTracks := [houseTrack]
    playlists := [⟨"House".data, some "1".data, some "7".data, some "1".data, ["1".data]⟩] }

def houseDisk : List Char → Bool := fun p => p == "C:/m/song.flac".data

/-- The collection clone the house scenario produces. -/
def houseClone : Track :=
  { trackID := "2".data
    location := "file://localhost/C:/m/song.mp3".data
    kind := "MP3 File".data
    bitRate := "320".data
    meta := [("Name".data, "Song".data)] }

/-- The output document of the house scenario. -/
def houseOut : Doc :=
  { colEntries := 2
    colTracks := [houseTrack, houseClone]
    playlists := [⟨"House".data, some "1".data, some "7".data, some "1".data, ["1".data]⟩,
      ⟨"House_MP3".data, some "1".data, some "7".data, some "1".data, ["2".data]⟩] }

/-- The job list of the house scenario. -/
def houseJobs : List (List Char × List Char) :=
  [("C:/m/song.flac".data, "C:/m/song.mp3".data)]

/-- Counterexample document for the eligibility claim: the only playlist
referencing track `1` is the mirror playlist `A_MP3`, and a node named
`A_MP3_MP3` happens to exist, so the run completes and converts the
track even though no non-mirror playlist references it. -/
def cexDoc : Doc :=
  { colEntries := 1
    colTracks := [{ trackID := "1".data
                    location := "file://localhost/C:/x.flac".data
                    kind := "FLAC File".data
                    bitRate := "1411".data
                    meta := [] }]
    playlists := [⟨"A_MP3".data, some "1".data, some "8".data, some "1".data, ["1".data]⟩,
                  ⟨"A_MP3_MP3".data, some "0".data, some "9".data, some "1".data, []⟩] }

/-- Disk oracle for `cexDoc`: the single FLAC file exists. -/
def cexDisk : List Char → Bool := fun p => p == "C:/x.flac".data

/-- Number of tracks in the output collection of a successful run
(`0` when the run died). -/
def resTrackCount : Except Unit (Doc × List (List Char × List Char)) → Nat
  | .ok (d, _) => d.colTracks.length
  | .error _ => 0

/-- Number of conversion jobs of a successful run. -/
def resJobCount : Except Unit (Doc × List (List Char × List Char)) → Nat
  | .ok (_, js) => js.length
  | .error _ => 0

/-!  Everything below is proof: sanity evaluations first, then the helper
lemmas, then one theorem per specification claim. -/

-- Sanity checks on the primitives (concrete, kernel-evaluated).
example : unescape_from_xml "%20%26%27,x".data = " &',x".data := by decide
example : escape_for_xml ",&' %2067".data = "%27%26'%20%2067".data := by decide
example : splitextPair "a.FLAC".data = ("a".data, ".FLAC".data) := by decide
example : splitextPair "file://localhost/....mp3".data = ("file://localhost/....mp3".data, []) := by decide
example : splitextPair "x\\y.z/w.q".data = ("x\\y.z/w".data, ".q".data) := by decide
example : splitextPair ".flac".data = (".flac".data, []) := by decide
example : lowerStr ".FlAc".data = ".flac".data := by decide
example : intToStr 120 = "120".data := by decide
example : intToStr (-5) = "-5".data := by decide
example : decodeLoc "file://localhost/C:/a%20b.flac".data = "C:/a b.flac".data := by decide
example : lendsWith "House_MP3".data mirrorSfx = true := by decide
example : lendsWith "House".data mirrorSfx = false := by decide

-- End-to-end sanity scenario (spec §8): one playlist "House", one FLAC
-- track on disk.  Expected: playlist "House_MP3" appears with one entry
-- keyed "2", a clone with id "2" is appended, entries becomes 2, one job.
example :
    runMain houseDisk houseDoc =
      .ok ({ colEntries := 2
             colTracks := [houseTrack,
               { trackID := "2".data
                 location := "file://localhost/C:/m/song.mp3".data
                 kind := "MP3 File".data
                 bitRate := "320".data
                 meta := [("Name".data, "Song".data)] }]
             playlists := [⟨"House".data, some "1".data, some "7".data, some "1".data, ["1".data]⟩,
               ⟨"House_MP3".data, some "1".data, some "7".data, some "1".data, ["2".data]⟩] },
        [("C:/m/song.flac".data, "C:/m/song.mp3".data)]) := by decide

-- Same but the file is missing on disk: only the empty mirror appears.
example :
    runMain (fun _ => false) houseDoc =
      .ok ({ colEntries := 1
             colTracks := [houseTrack]
             playlists := [⟨"House".data, some "1".data, some "7".data, some "1".data, ["1".data]⟩,
               ⟨"House_MP3".data, some "1".data, some "7".data, some "1".data, []⟩] },
        []) := by decide

-- The counterexample document converts its track (see the C1 theorems).
example : resTrackCount (runMain cexDisk cexDoc) = 2 := by decide
example : resJobCount (runMain cexDisk cexDoc) = 1 := by decide

-- The raw-element run agrees with the typed pipeline on the house
-- scenario: it completes, the folder gains the mirror playlist, the
-- collection gains the clone, the mirror holds key "2", and the final
-- Entries attribute is "2".
example : isOkX (mainX houseDisk houseXRoot) = true := by decide
example : folderSize (finalDoc (mainX houseDisk houseXRoot)) = 2 := by decide
example : ((finalDoc (mainX houseDisk houseXRoot)).children[1]?).map
    (fun c => c.children.length) = some 2 := by decide
example : ((finalDoc (mainX houseDisk houseXRoot)).children[1]?).bind
    (xget "Entries".data) = some "2".data := by decide
example :
    (((finalDoc (mainX houseDisk houseXRoot)).children[2]?).bind
      (fun s2 => s2.children[0]?)).map
      (fun f => f.children.map (fun n => (xget "Name".data n,
        n.children.map (xget "Key".data)))) =
    some [(some "House".data, [some "1".data]),
          (some "House_MP3".data, [some "2".data])] := by decide

/-! ### Basic helper lemmas -/

lemma contains_iff_mem (l : List (List Char)) (s : List Char) :
    l.contains s = true ↔ s ∈ l := by
  simp [List.contains]

lemma lstartsWith_append_self : ∀ (b a : List Char), lstartsWith (b ++ a) b = true
  | [], a => by cases a <;> rfl
  | c :: cs, a => by simp [lstartsWith, lstartsWith_append_self cs a]

lemma lendsWith_append_self (a b : List Char) : lendsWith (a ++ b) b = true := by
  simpa [lendsWith, List.reverse_append] using
    lstartsWith_append_self b.reverse a.reverse

lemma updAt_length (g : α → α) (j : Nat) (l : List α) :
    (updAt j g l).length = l.length := by
  induction l generalizing j with
  | nil => simp [updAt]
  | cons a l ih => cases j <;> simp [updAt, ih]

lemma updAt_getElem? (g : α → α) :
    ∀ (l : List α) (j i : Nat),
      (updAt j g l)[i]? = if i = j then (l[i]?).map g else l[i]?
  | [], j, i => by simp [updAt]
  | a :: l, 0, 0 => by simp [updAt]
  | a :: l, 0, i + 1 => by simp [updAt]
  | a :: l, j + 1, 0 => by simp [updAt]
  | a :: l, j + 1, i + 1 => by
    simpa [updAt, Nat.succ_inj] using updAt_getElem? g l j i

lemma lfindIdx_map (f : α → β) (p : β → Bool) :
    ∀ l : List α, lfindIdx p (l.map f) = lfindIdx (fun a => p (f a)) l
  | [] => rfl
  | a :: l => by simp [lfindIdx, lfindIdx_map f p l]

lemma lfindIdx_some (p : α → Bool) :
    ∀ (l : List α) (j : Nat), lfindIdx p l = some j →
      ∃ a, l[j]? = some a ∧ p a = true
  | [], j, h => by simp [lfindIdx] at h
  | a :: l, j, h => by
    by_cases hpa : p a
    · simp [lfindIdx, hpa] at h
      have hj : j = 0 := by omega
      subst hj
      exact ⟨a, by simp, hpa⟩
    · simp [lfindIdx, hpa] at h
      obtain ⟨j', hj', rfl⟩ := h
      obtain ⟨b, hb, hpb⟩ := lfindIdx_some p l j' hj'
      exact ⟨b, by simpa using hb, hpb⟩

lemma lfindIdx_isSome (p : α → Bool) :
    ∀ l : List α, (∃ a ∈ l, p a = true) → (lfindIdx p l).isSome = true
  | [], h => by simp at h
  | a :: l, h => by
    by_cases hpa : p a
    · simp [lfindIdx, hpa]
    · obtain ⟨b, hb, hpb⟩ := h
      rcases List.mem_cons.mp hb with rfl | hb'
      · exact absurd hpb hpa
      · have := lfindIdx_isSome p l ⟨b, hb', hpb⟩
        obtain ⟨j, hj⟩ := Option.isSome_iff_exists.mp this
        simp [lfindIdx, hpa, hj]

lemma lfindIdx_of_getElem?_nodup :
    ∀ (names : List (List Char)) (j : Nat) (nm : List Char),
      names.Nodup → names[j]? = some nm →
      lfindIdx (fun s => s == nm) names = some j
  | [], j, nm, _, h => by simp at h
  | a :: names, 0, nm, _, h => by
    simp at h
    simp [lfindIdx, h]
  | a :: names, j + 1, nm, hnd, h => by
    simp at h
    have hmem : nm ∈ names := by
      have := List.getElem?_eq_some_iff.mp h
      obtain ⟨hlt, hget⟩ := this
      exact hget ▸ List.getElem_mem hlt
    have hane : (a == nm) = false := by
      rcases List.nodup_cons.mp hnd with ⟨hna, _⟩
      simp
      rintro rfl
      exact hna hmem
    have := lfindIdx_of_getElem?_nodup names j nm (List.nodup_cons.mp hnd).2 h
    simp [lfindIdx, hane, this]

/-! ### Injectivity of the decimal printer -/

lemma natToStrGo_acc : ∀ (f n : Nat) (acc : List Char),
    natToStrGo f n acc = natToStrGo f n [] ++ acc
  | 0, _, _ => rfl
  | f + 1, n, acc => by
    by_cases h : n < 10
    · simp [natToStrGo, h]
    · simp only [natToStrGo, if_neg h]
      rw [natToStrGo_acc f (n / 10) (Char.ofNat (48 + n % 10) :: acc),
        natToStrGo_acc f (n / 10) [Char.ofNat (48 + n % 10)]]
      simp

lemma natToStrGo_fuel (n : Nat) : ∀ (f g : Nat) (acc : List Char), n < f → n < g →
    natToStrGo f n acc = natToStrGo g n acc := by
  induction n using Nat.strong_induction_on with
  | _ n ih =>
    intro f g acc hf hg
    match f, g with
    | f' + 1, g' + 1 =>
      by_cases h : n < 10
      · simp [natToStrGo, h]
      · simp only [natToStrGo, if_neg h]
        have hn : 0 < n := by omega
        have hdiv : n / 10 < n := Nat.div_lt_self hn (by omega)
        exact ih (n / 10) hdiv f' g' _ (by omega) (by omega)

lemma natToStr_lt10 {n : Nat} (h : n < 10) : natToStr n = [Char.ofNat (48 + n)] := by
  simp [natToStr, natToStrGo, h]

lemma natToStr_ge10 {n : Nat} (h : 10 ≤ n) :
    natToStr n = natToStr (n / 10) ++ [Char.ofNat (48 + n % 10)] := by
  have hstep : natToStr n = natToStrGo n (n / 10) [Char.ofNat (48 + n % 10)] := by
    rw [natToStr]
    simp only [natToStrGo]
    rw [if_neg (by omega)]
  rw [hstep, natToStrGo_fuel (n / 10) n (n / 10 + 1) _ (by omega) (by omega),
    natToStrGo_acc]
  rfl

lemma natToStr_ne_nil (n : Nat) : natToStr n ≠ [] := by
  by_cases h : n < 10
  · rw [natToStr_lt10 h]; simp
  · rw [natToStr_ge10 (by omega)]; simp

lemma digitChar_inj : ∀ a < 10, ∀ b < 10,
    Char.ofNat (48 + a) = Char.ofNat (48 + b) → a = b := by decide

lemma natToStr_inj : ∀ {m n : Nat}, natToStr m = natToStr n → m = n := by
  intro m
  induction m using Nat.strong_induction_on with
  | _ m ih =>
    intro n h
    by_cases hm : m < 10 <;> by_cases hn : n < 10
    · rw [natToStr_lt10 hm, natToStr_lt10 hn] at h
      simp at h
      exact digitChar_inj m hm n hn h
    · obtain ⟨x, xs, hx⟩ := List.exists_cons_of_ne_nil (natToStr_ne_nil (n / 10))
      rw [natToStr_lt10 hm, natToStr_ge10 (n := n) (by omega), hx] at h
      have := congrArg List.length h
      simp at this
    · obtain ⟨x, xs, hx⟩ := List.exists_cons_of_ne_nil (natToStr_ne_nil (m / 10))
      rw [natToStr_ge10 (n := m) (by omega), natToStr_lt10 hn, hx] at h
      have := congrArg List.length h
      simp at this
    · rw [natToStr_ge10 (n := m) (by omega), natToStr_ge10 (n := n) (by omega)] at h
      obtain ⟨h1, h2⟩ := List.append_inj' h rfl
      have hdiv : m / 10 = n / 10 :=
        ih (m / 10) (Nat.div_lt_self (by omega) (by omega)) h1
      have hd : Char.ofNat (48 + m % 10) = Char.ofNat (48 + n % 10) := by
        simpa using h2
      have hmod : m % 10 = n % 10 :=
        digitChar_inj (m % 10) (Nat.mod_lt _ (by omega)) (n % 10) (Nat.mod_lt _ (by omega)) hd
      omega

lemma intToStr_inj_nonneg {k m : Int} (hk : 0 ≤ k) (hm : 0 ≤ m)
    (h : intToStr k = intToStr m) : k = m := by
  rw [intToStr, intToStr, if_neg (by omega), if_neg (by omega)] at h
  have := natToStr_inj h
  omega

/-! ### Characterising the path codec -/

lemma replaceGo_fuel (pat rep : List Char) :
    ∀ (f g : Nat) (s : List Char), s.length < f → s.length < g →
      replaceGo pat rep f s = replaceGo pat rep g s := by
  intro f
  induction f with
  | zero => intro g s hf _; omega
  | succ f ih =>
    intro g s hf hg
    match g, s with
    | g' + 1, [] => rfl
    | g' + 1, c :: rest =>
      by_cases hcase : pat ≠ [] ∧ lstartsWith (c :: rest) pat
      · simp only [replaceGo, if_pos hcase]
        rw [ih g' (rest.drop (pat.length - 1))
          (by simp [List.length_drop] at hf ⊢; omega)
          (by simp [List.length_drop] at hg ⊢; omega)]
      · simp only [replaceGo, if_neg hcase]
        rw [ih g' rest (by simp at hf ⊢; omega) (by simp at hg ⊢; omega)]

lemma replaceAll_nil (pat rep : List Char) : replaceAll pat rep [] = [] := rfl

lemma replaceAll_pos (pat rep : List Char) (s : List Char) (hpat : pat ≠ [])
    (h : lstartsWith s pat = true) :
    replaceAll pat rep s = rep ++ replaceAll pat rep (s.drop pat.length) := by
  match s with
  | [] =>
    obtain ⟨p, ps, rfl⟩ := List.exists_cons_of_ne_nil hpat
    simp [lstartsWith] at h
  | c :: rest =>
    simp only [replaceAll, List.length_cons, replaceGo, if_pos (And.intro hpat h)]
    obtain ⟨p, ps, rfl⟩ := List.exists_cons_of_ne_nil hpat
    have hdrop : rest.drop ((p :: ps).length - 1) = (c :: rest).drop (p :: ps).length := by
      simp
    rw [hdrop]
    congr 1
    exact replaceGo_fuel _ _ _ _ _
      (by simp [List.length_drop]; omega) (by omega)

lemma replaceAll_neg (pat rep : List Char) (c : Char) (rest : List Char)
    (h : lstartsWith (c :: rest) pat = false) :
    replaceAll pat rep (c :: rest) = c :: replaceAll pat rep rest := by
  simp only [replaceAll, List.length_cons, replaceGo]
  rw [if_neg (by simp [h])]

lemma replaceAll_cons_inv (pat : List Char) (r d : Char) (s ys : List Char)
    (hpat : pat ≠ []) (h : replaceAll pat [r] s = d :: ys) (hd : d ≠ r) :
    ∃ s', s = d :: s' ∧ replaceAll pat [r] s' = ys := by
  match s with
  | [] => simp [replaceAll_nil] at h
  | c :: rest =>
    by_cases hs : lstartsWith (c :: rest) pat = true
    · rw [replaceAll_pos pat [r] _ hpat hs] at h
      simp at h
      exact absurd h.1.symm hd
    · rw [replaceAll_neg pat [r] c rest (by simpa using hs)] at h
      obtain ⟨rfl, rfl⟩ := List.cons.injEq .. ▸ h
      exact ⟨rest, rfl, rfl⟩

lemma lstartsWith_decomp {X : List Char} {p : Char} {ps : List Char}
    (h : lstartsWith X (p :: ps) = true) :
    ∃ X', X = p :: X' ∧ lstartsWith X' ps = true := by
  match X with
  | [] => simp [lstartsWith] at h
  | x :: xs =>
    simp [lstartsWith] at h
    exact ⟨xs, by rw [h.1], h.2⟩

lemma mapChars_ext {F G : Char → List Char} (h : ∀ c, F c = G c) :
    ∀ s, mapChars F s = mapChars G s
  | [] => rfl
  | c :: cs => by simp [mapChars, h c, mapChars_ext h cs]

lemma mapChars_append (F : Char → List Char) :
    ∀ a b, mapChars F (a ++ b) = mapChars F a ++ mapChars F b
  | [], b => rfl
  | c :: cs, b => by simp [mapChars, mapChars_append F cs b]

lemma mapChars_comp (F G : Char → List Char) :
    ∀ s, mapChars G (mapChars F s) = mapChars (fun c => mapChars G (F c)) s
  | [] => rfl
  | c :: cs => by
    simp [mapChars, mapChars_append, mapChars_comp F G cs]

lemma unescScan_tok20 (r : List Char) : unescScan ('%' :: '2' :: '0' :: r) = ' ' :: unescScan r := rfl

lemma unescScan_tok26 (r : List Char) : unescScan ('%' :: '2' :: '6' :: r) = '&' :: unescScan r := rfl

lemma unescScan_tok27 (r : List Char) : unescScan ('%' :: '2' :: '7' :: r) = '\'' :: unescScan r := rfl

lemma unescScan_cons (c : Char) (cs : List Char)
    (h20 : lstartsWith (c :: cs) ['%', '2', '0'] = false)
    (h26 : lstartsWith (c :: cs) ['%', '2', '6'] = false)
    (h27 : lstartsWith (c :: cs) ['%', '2', '7'] = false) :
    unescScan (c :: cs) = c :: unescScan cs := by
  rw [unescScan.eq_def]
  split
  · rename_i heq
    rw [heq] at h20; simp [lstartsWith] at h20
  · rename_i heq
    rw [heq] at h26; simp [lstartsWith] at h26
  · rename_i heq
    rw [heq] at h27; simp [lstartsWith] at h27
  · rename_i heq
    injection heq with h1 h2
    rw [← h1, ← h2]
  · rename_i heq
    simp at heq

lemma unesc_step20 (r : List Char) :
    unescape_from_xml ('%' :: '2' :: '0' :: r) = ' ' :: unescape_from_xml r := by
  unfold unescape_from_xml
  rw [show "%20".data = ['%', '2', '0'] from rfl, show "%26".data = ['%', '2', '6'] from rfl,
    show "%27".data = ['%', '2', '7'] from rfl]
  rw [replaceAll_pos ['%', '2', '0'] [' '] _ (by simp) (by simp [lstartsWith])]
  simp only [List.length_cons, List.length_nil, List.drop_succ_cons, List.drop_zero,
    List.singleton_append]
  rw [replaceAll_neg ['%', '2', '6'] ['&'] ' ' _ (by simp [lstartsWith]),
    replaceAll_neg ['%', '2', '7'] ['\''] ' ' _ (by simp [lstartsWith])]

lemma unesc_step26 (r : List Char) :
    unescape_from_xml ('%' :: '2' :: '6' :: r) = '&' :: unescape_from_xml r := by
  unfold unescape_from_xml
  rw [show "%20".data = ['%', '2', '0'] from rfl, show "%26".data = ['%', '2', '6'] from rfl,
    show "%27".data = ['%', '2', '7'] from rfl]
  rw [replaceAll_neg ['%', '2', '0'] [' '] '%' _ (by simp [lstartsWith]),
    replaceAll_neg ['%', '2', '0'] [' '] '2' _ (by simp [lstartsWith]),
    replaceAll_neg ['%', '2', '0'] [' '] '6' _ (by simp [lstartsWith])]
  rw [replaceAll_pos ['%', '2', '6'] ['&'] _ (by simp) (by simp [lstartsWith])]
  simp only [List.length_cons, List.length_nil, List.drop_succ_cons, List.drop_zero,
    List.singleton_append]
  rw [replaceAll_neg ['%', '2', '7'] ['\''] '&' _ (by simp [lstartsWith])]

lemma unesc_step27 (r : List Char) :
    unescape_from_xml ('%' :: '2' :: '7' :: r) = '\'' :: unescape_from_xml r := by
  unfold unescape_from_xml
  rw [show "%20".data = ['%', '2', '0'] from rfl, show "%26".data = ['%', '2', '6'] from rfl,
    show "%27".data = ['%', '2', '7'] from rfl]
  rw [replaceAll_neg ['%', '2', '0'] [' '] '%' _ (by simp [lstartsWith]),
    replaceAll_neg ['%', '2', '0'] [' '] '2' _ (by simp [lstartsWith]),
    replaceAll_neg ['%', '2', '0'] [' '] '7' _ (by simp [lstartsWith])]
  rw [replaceAll_neg ['%', '2', '6'] ['&'] '%' _ (by simp [lstartsWith]),
    replaceAll_neg ['%', '2', '6'] ['&'] '2' _ (by simp [lstartsWith]),
    replaceAll_neg ['%', '2', '6'] ['&'] '7' _ (by simp [lstartsWith])]
  rw [replaceAll_pos ['%', '2', '7'] ['\''] _ (by simp) (by simp [lstartsWith])]
  simp only [List.length_cons, List.length_nil, List.drop_succ_cons, List.drop_zero,
    List.singleton_append]

lemma unesc_step_default (c : Char) (cs : List Char)
    (h20 : lstartsWith (c :: cs) ['%', '2', '0'] = false)
    (h26 : lstartsWith (c :: cs) ['%', '2', '6'] = false)
    (h27 : lstartsWith (c :: cs) ['%', '2', '7'] = false) :
    unescape_from_xml (c :: cs) = c :: unescape_from_xml cs := by
  unfold unescape_from_xml
  rw [show "%20".data = ['%', '2', '0'] from rfl, show "%26".data = ['%', '2', '6'] from rfl,
    show "%27".data = ['%', '2', '7'] from rfl]
  rw [replaceAll_neg ['%', '2', '0'] [' '] c cs h20]
  have hB : lstartsWith (c :: replaceAll ['%', '2', '0'] [' '] cs) ['%', '2', '6'] = false := by
    by_contra hh
    simp only [Bool.not_eq_false] at hh
    obtain ⟨Y1, hY1, g1⟩ := lstartsWith_decomp hh
    obtain ⟨Y2, hY2, g2⟩ := lstartsWith_decomp g1
    obtain ⟨Y3, hY3, _⟩ := lstartsWith_decomp g2
    injection hY1 with hc hAcs
    obtain ⟨cs1, hcs1, hA1⟩ :=
      replaceAll_cons_inv ['%', '2', '0'] ' ' '2' cs Y2 (by simp) (hAcs.trans hY2) (by decide)
    obtain ⟨cs2, hcs2, _⟩ :=
      replaceAll_cons_inv ['%', '2', '0'] ' ' '6' cs1 Y3 (by simp) (hA1.trans hY3) (by decide)
    rw [hc, hcs1, hcs2] at h26
    simp [lstartsWith] at h26
  rw [replaceAll_neg ['%', '2', '6'] ['&'] c _ hB]
  have hC : lstartsWith
      (c :: replaceAll ['%', '2', '6'] ['&'] (replaceAll ['%', '2', '0'] [' '] cs))
      ['%', '2', '7'] = false := by
    by_contra hh
    simp only [Bool.not_eq_false] at hh
    obtain ⟨Y1, hY1, g1⟩ := lstartsWith_decomp hh
    obtain ⟨Y2, hY2, g2⟩ := lstartsWith_decomp g1
    obtain ⟨Y3, hY3, _⟩ := lstartsWith_decomp g2
    injection hY1 with hc hBAcs
    obtain ⟨Z1, hZ1, hB1⟩ :=
      replaceAll_cons_inv ['%', '2', '6'] '&' '2' _ Y2 (by simp) (hBAcs.trans hY2) (by decide)
    obtain ⟨cs1, hcs1, hA1⟩ :=
      replaceAll_cons_inv ['%', '2', '0'] ' ' '2' cs Z1 (by simp) hZ1 (by decide)
    obtain ⟨Z2, hZ2, _⟩ :=
      replaceAll_cons_inv ['%', '2', '6'] '&' '7' Z1 Y3 (by simp) (hB1.trans hY3) (by decide)
    obtain ⟨cs2, hcs2, _⟩ :=
      replaceAll_cons_inv ['%', '2', '0'] ' ' '7' cs1 Z2 (by simp) (hA1.trans hZ2) (by decide)
    rw [hc, hcs1, hcs2] at h27
    simp [lstartsWith] at h27
  rw [replaceAll_neg ['%', '2', '7'] ['\''] c _ hC]

lemma unesc_eq_scan (s : List Char) : unescape_from_xml s = unescScan s := by
  suffices H : ∀ n (s : List Char), s.length ≤ n → unescape_from_xml s = unescScan s by
    exact H s.length s (le_refl _)
  intro n
  induction n with
  | zero =>
    intro s hs
    have hnil : s = [] := List.length_eq_zero.mp (by omega)
    subst hnil
    rfl
  | succ n ih =>
    intro s hs
    match s with
    | [] => rfl
    | c :: cs =>
      by_cases h20 : lstartsWith (c :: cs) ['%', '2', '0'] = true
      · obtain ⟨X1, hX1, g1⟩ := lstartsWith_decomp h20
        obtain ⟨X2, hX2, g2⟩ := lstartsWith_decomp g1
        obtain ⟨X3, hX3, _⟩ := lstartsWith_decomp g2
        have hcsh : c :: cs = '%' :: '2' :: '0' :: X3 := by rw [hX1, hX2, hX3]
        have hlen : X3.length ≤ n := by
          have := congrArg List.length hcsh
          simp at this hs
          omega
        rw [hcsh, unesc_step20, unescScan_tok20, ih X3 hlen]
      · by_cases h26 : lstartsWith (c :: cs) ['%', '2', '6'] = true
        · obtain ⟨X1, hX1, g1⟩ := lstartsWith_decomp h26
          obtain ⟨X2, hX2, g2⟩ := lstartsWith_decomp g1
          obtain ⟨X3, hX3, _⟩ := lstartsWith_decomp g2
          have hcsh : c :: cs = '%' :: '2' :: '6' :: X3 := by rw [hX1, hX2, hX3]
          have hlen : X3.length ≤ n := by
            have := congrArg List.length hcsh
            simp at this hs
            omega
          rw [hcsh, unesc_step26, unescScan_tok26, ih X3 hlen]
        · by_cases h27 : lstartsWith (c :: cs) ['%', '2', '7'] = true
          · obtain ⟨X1, hX1, g1⟩ := lstartsWith_decomp h27
            obtain ⟨X2, hX2, g2⟩ := lstartsWith_decomp g1
            obtain ⟨X3, hX3, _⟩ := lstartsWith_decomp g2
            have hcsh : c :: cs = '%' :: '2' :: '7' :: X3 := by rw [hX1, hX2, hX3]
            have hlen : X3.length ≤ n := by
              have := congrArg List.length hcsh
              simp at this hs
              omega
            rw [hcsh, unesc_step27, unescScan_tok27, ih X3 hlen]
          · have h20' := Bool.not_eq_true _ ▸ h20
            have h26' := Bool.not_eq_true _ ▸ h26
            have h27' := Bool.not_eq_true _ ▸ h27
            rw [unesc_step_default c cs h20' h26' h27',
              unescScan_cons c cs h20' h26' h27', ih cs (by simp at hs; omega)]

lemma replaceAll_single (p : Char) (rep : List Char) :
    ∀ s, replaceAll [p] rep s = mapChars (fun c => if c = p then rep else [c]) s
  | [] => rfl
  | c :: rest => by
    by_cases hc : c = p
    · rw [replaceAll_pos [p] rep (c :: rest) (by simp) (by simp [lstartsWith, hc])]
      simp [mapChars, hc, replaceAll_single p rep rest]
    · rw [replaceAll_neg [p] rep c rest (by simp [lstartsWith, hc])]
      simp [mapChars, hc, replaceAll_single p rep rest]

lemma escape_eq_spec (s : List Char) : escape_for_xml s = mapChars escCharSpec s := by
  unfold escape_for_xml
  rw [replaceAll_single, replaceAll_single, replaceAll_single, mapChars_comp, mapChars_comp]
  apply mapChars_ext _ s
  intro c
  by_cases h1 : c = ' '
  · subst h1; decide
  · by_cases h2 : c = '&'
    · subst h2; decide
    · by_cases h3 : c = ','
      · subst h3; decide
      · simp [escCharSpec, mapChars, h1, h2, h3]

/-- C7: `unescape_from_xml` is exactly a single left-to-right scan that
replaces the tokens `%20`, `%26`, `%27` with space, ampersand and
apostrophe (`unescScan`), and `escape_for_xml` is exactly the
character-wise map that sends space, ampersand and comma to `%20`, `%26`,
`%27` (`escCharSpec`); every other character passes through unchanged in
both directions.  The two are not mutual inverses: decoding the encoding
of `","` yields `"'"`. -/
theorem C7_pathCodec :
    (∀ s, unescape_from_xml s = unescScan s) ∧
    (∀ s, escape_for_xml s = mapChars escCharSpec s) ∧
    unescape_from_xml (escape_for_xml ",".data) ≠ ",".data := by
  refine ⟨unesc_eq_scan, escape_eq_spec, ?_⟩
  decide

/-! ### Clones are skipped when the loop revisits them -/

lemma splitextExt_cases (s : List Char) :
    splitextExt s = [] ∨ ∃ d, splitextExt s = s.drop d := by
  unfold splitextExt splitextPair
  rcases splitextIdx s with _ | d
  · exact Or.inl rfl
  · exact Or.inr ⟨d, rfl⟩

lemma getLast?_drop_of_ne_nil (s : List Char) (d : Nat) (h : s.drop d ≠ []) :
    (s.drop d).getLast? = s.getLast? := by
  conv_rhs => rw [← List.take_append_drop d s]
  rw [List.getLast?_append_of_ne_nil _ h]

lemma ext_of_mp3_suffix (pre : List Char) :
    lowerStr (splitextExt (pre ++ ".mp3".data)) ≠ ".flac".data := by
  intro hEq
  have hne : splitextExt (pre ++ ".mp3".data) ≠ [] := by
    intro hnil
    rw [hnil] at hEq
    simp [lowerStr] at hEq
  obtain hc | ⟨d, hd⟩ := splitextExt_cases (pre ++ ".mp3".data)
  · exact hne hc
  have hdne : (pre ++ ".mp3".data).drop d ≠ [] := hd ▸ hne
  have hlast : (splitextExt (pre ++ ".mp3".data)).getLast? = some '3' := by
    rw [hd, getLast?_drop_of_ne_nil _ _ hdne,
      List.getLast?_append_of_ne_nil pre (show ".mp3".data ≠ [] by simp)]
    rfl
  have h1 : (lowerStr (splitextExt (pre ++ ".mp3".data))).getLast? = some (lowCh '3') := by
    rw [lowerStr, List.getLast?_map, hlast]
    rfl
  rw [hEq] at h1
  simp [show (".flac".data).getLast? = some 'c' from rfl] at h1
  exact absurd h1 (by decide)

lemma mkClone_skip (t : Track) (c : Int) (X : List Char) :
    lowerStr (splitextExt (mkClone t c (X ++ ".mp3".data)).location) ≠ ".flac".data := by
  have hloc : (mkClone t c (X ++ ".mp3".data)).location =
      (localhostPfx ++ escape_for_xml X) ++ ".mp3".data := by
    simp only [mkClone, escape_eq_spec, mapChars_append, List.append_assoc]
    congr 2
  rw [hloc]
  exact ext_of_mp3_suffix _

lemma stepTrack_skip (onDisk : List Char → Bool) (st : TState) (t : Track)
    (h : lowerStr (splitextExt t.location) ≠ ".flac".data) :
    stepTrack onDisk st t = .ok (st, []) := by
  unfold stepTrack
  rw [if_pos h]

lemma stepTrack_ok_shape (onDisk : List Char → Bool) (st : TState) (t : Track)
    (st' : TState) (app : List Track)
    (h : stepTrack onDisk st t = .ok (st', app)) :
    (app = [] ∧ st'.currId = st.currId ∧ st'.colTracks = st.colTracks ∧ st'.jobs = st.jobs) ∨
    (lowerStr (splitextExt t.location) = ".flac".data ∧
      app = [mkClone t st.currId (splitextRoot (decodeLoc t.location) ++ ".mp3".data)] ∧
      st'.currId = st.currId + 1 ∧ st'.colTracks = st.colTracks ++ app ∧
      st'.jobs = dictSet (decodeLoc t.location)
        (splitextRoot (decodeLoc t.location) ++ ".mp3".data) st.jobs) := by
  unfold stepTrack at h
  split at h
  · left
    obtain ⟨rfl, rfl⟩ := Prod.mk.injEq .. ▸ Except.ok.injEq .. ▸ h
    exact ⟨rfl, rfl, rfl, rfl⟩
  · rename_i hflac
    split at h
    · left
      obtain ⟨rfl, rfl⟩ := Prod.mk.injEq .. ▸ Except.ok.injEq .. ▸ h
      exact ⟨rfl, rfl, rfl, rfl⟩
    · split at h
      · exact absurd h (by simp)
      · rename_i inPl pls' hinner
        split at h
        · left
          obtain ⟨rfl, rfl⟩ := Prod.mk.injEq .. ▸ Except.ok.injEq .. ▸ h
          exact ⟨rfl, rfl, rfl, rfl⟩
        · right
          obtain ⟨rfl, rfl⟩ := Prod.mk.injEq .. ▸ Except.ok.injEq .. ▸ h
          refine ⟨by simpa using hflac, rfl, rfl, rfl, rfl⟩

/-! ### The growing-collection loop equals the originals-only fold -/

lemma trackWeight_pos (t : Track) : 1 ≤ trackWeight t := by
  unfold trackWeight; split <;> omega

lemma trackWeight_le (t : Track) : trackWeight t ≤ 2 := by
  unfold trackWeight; split <;> omega

lemma measureW_nil : measureW [] = 0 := rfl

lemma measureW_cons (t : Track) (ts : List Track) :
    measureW (t :: ts) = trackWeight t + measureW ts := by
  simp [measureW]

lemma measureW_le (ts : List Track) : measureW ts ≤ 2 * ts.length := by
  induction ts with
  | nil => simp [measureW_nil]
  | cons t ts ih =>
    have := trackWeight_le t
    rw [measureW_cons]
    simp only [List.length_cons]
    omega

lemma trackLoop_nonflac (onDisk : List Char → Bool) :
    ∀ (cs : List Track) (st : TState) (f : Nat),
      (∀ c ∈ cs, lowerStr (splitextExt c.location) ≠ ".flac".data) →
      cs.length < f →
      trackLoopFuel onDisk f cs st = some (.ok st) := by
  intro cs
  induction cs with
  | nil =>
    intro st f _ hf
    match f with
    | g + 1 => rfl
  | cons c cs ih =>
    intro st f hall hf
    match f with
    | g + 1 =>
      have hskip := stepTrack_skip onDisk st c (hall c (by simp))
      simp only [trackLoopFuel, hskip, List.append_nil]
      exact ih st g (fun x hx => hall x (by simp [hx])) (by simp at hf; omega)

lemma loopFuel_eq_fold (onDisk : List Char → Bool) :
    ∀ (ts cs : List Track) (st : TState) (f : Nat),
      (∀ c ∈ cs, lowerStr (splitextExt c.location) ≠ ".flac".data) →
      measureW ts + cs.length < f →
      trackLoopFuel onDisk f (ts ++ cs) st = some (foldStep onDisk ts st) := by
  intro ts
  induction ts with
  | nil =>
    intro cs st f hall hf
    simp only [List.nil_append, foldStep]
    exact trackLoop_nonflac onDisk cs st f hall (by rw [measureW_nil] at hf; omega)
  | cons t ts ih =>
    intro cs st f hall hf
    have h1 := trackWeight_pos t
    rw [measureW_cons] at hf
    match f with
    | 0 => omega
    | g + 1 =>
      rcases hstep : stepTrack onDisk st t with e | p
      · simp only [List.cons_append, trackLoopFuel, hstep, foldStep]
      · obtain ⟨st1, app⟩ := p
        simp only [List.cons_append, trackLoopFuel, hstep, foldStep, List.append_eq]
        rw [List.append_assoc]
        rcases stepTrack_ok_shape onDisk st t st1 app hstep with
          ⟨rfl, _, _, _⟩ | ⟨hflac, rfl, _, _, _⟩
        · rw [List.append_nil]
          exact ih cs st1 g hall (by omega)
        · have hw : trackWeight t = 2 := by simp [trackWeight, hflac]
          refine ih (cs ++ [_]) st1 g ?_ ?_
          · intro x hx
            rcases List.mem_append.mp hx with hx' | hx'
            · exact hall x hx'
            · rw [List.mem_singleton.mp hx']
              exact mkClone_skip t st.currId _
          · simp only [List.length_append, List.length_singleton]
            omega

lemma loopFuel_eq_fold_nil (onDisk : List Char → Bool) (ts : List Track) (st : TState)
    (f : Nat) (hf : measureW ts < f) :
    trackLoopFuel onDisk f ts st = some (foldStep onDisk ts st) := by
  have := loopFuel_eq_fold onDisk ts [] st f (by simp) (by simpa using hf)
  simpa using this

lemma runMain_eq_fold (onDisk : List Char → Bool) (d : Doc) :
    runMain onDisk d =
      match foldStep onDisk d.colTracks (initState d) with
      | .error _ => .error ()
      | .ok st =>
        .ok ({ colEntries := st.currId - 1
               colTracks := st.colTracks
               playlists := st.playlists }, st.jobs) := by
  unfold runMain
  rw [loopFuel_eq_fold_nil onDisk d.colTracks (initState d) _
    (by have := measureW_le d.colTracks; omega)]
  rcases foldStep onDisk d.colTracks (initState d) with e | st <;> rfl

/-- C9: Python's `for track in collection` does visit the clones the pass
appends, but every clone's location ends in `.mp3`, so a revisited clone
is skipped by the extension test: it produces no conversion job, no
further clone and no playlist entry.  Formally, the worklist run over the
growing collection terminates within `2·n + 1` iterations and returns
exactly the fold over the original tracks alone, which ignores appended
elements. -/
theorem C9_clonesNeverReprocessed (onDisk : List Char → Bool) (d : Doc) :
    trackLoopFuel onDisk (2 * d.colTracks.length + 1) d.colTracks (initState d) =
      some (foldStep onDisk d.colTracks (initState d)) :=
  loopFuel_eq_fold_nil onDisk d.colTracks (initState d) _
    (by have := measureW_le d.colTracks; omega)

/-! ### What the fold appends: shape, ids, counters -/

lemma foldStep_news (onDisk : List Char → Bool) :
    ∀ (ts : List Track) (st st' : TState),
      foldStep onDisk ts st = .ok st' →
      ∃ news : List Track,
        st'.colTracks = st.colTracks ++ news ∧
        st'.currId = st.currId + (news.length : Int) ∧
        (∀ (i : Nat) (nt : Track), news[i]? = some nt →
          nt.trackID = intToStr (st.currId + (i : Int)) ∧
          ∃ t ∈ ts, nt = mkClone t (st.currId + (i : Int))
            (splitextRoot (decodeLoc t.location) ++ ".mp3".data)) := by
  intro ts
  induction ts with
  | nil =>
    intro st st' h
    simp only [foldStep] at h
    injection h with h
    subst h
    exact ⟨[], by simp, by simp, by intro i nt hnt; simp at hnt⟩
  | cons t ts ih =>
    intro st st' h
    simp only [foldStep] at h
    rcases hstep : stepTrack onDisk st t with e | p
    · rw [hstep] at h; exact absurd h (by simp)
    · obtain ⟨st1, app⟩ := p
      rw [hstep] at h
      obtain ⟨news1, hcol, hcur, hidx⟩ := ih st1 st' h
      rcases stepTrack_ok_shape onDisk st t st1 app hstep with
        ⟨rfl, hc1, hc2, _⟩ | ⟨hflac, rfl, hc1, hc2, _⟩
      · refine ⟨news1, by rw [hcol, hc2], by rw [hcur, hc1], ?_⟩
        intro i nt hnt
        obtain ⟨hid, t', ht', hsh⟩ := hidx i nt hnt
        exact ⟨by rw [hid, hc1], t', by simp [ht'], by rw [← hc1]; exact hsh⟩
      · refine ⟨mkClone t st.currId (splitextRoot (decodeLoc t.location) ++ ".mp3".data) :: news1,
          ?_, ?_, ?_⟩
        · rw [hcol, hc2, List.append_assoc]
          rfl
        · rw [hcur, hc1]
          simp only [List.length_cons]
          push_cast
          ring
        · intro i nt hnt
          match i with
          | 0 =>
            simp at hnt
            refine ⟨by rw [← hnt]; simp [mkClone], t, by simp, ?_⟩
            rw [← hnt]
            norm_num
          | i + 1 =>
            simp only [List.getElem?_cons_succ] at hnt
            obtain ⟨hid, t', ht', hsh⟩ := hidx i nt hnt
            have harith : st1.currId + (i : Int) = st.currId + ((i : Nat) + 1 : Nat) := by
              rw [hc1]; push_cast; ring
            exact ⟨by rw [hid, harith], t', by simp [ht'], by rw [← harith]; exact hsh⟩

lemma runMain_ok_elim (onDisk : List Char → Bool) (d d' : Doc)
    (jobs : List (List Char × List Char))
    (h : runMain onDisk d = .ok (d', jobs)) :
    ∃ st, foldStep onDisk d.colTracks (initState d) = .ok st ∧
      d'.colEntries = st.currId - 1 ∧ d'.colTracks = st.colTracks ∧
      d'.playlists = st.playlists ∧ jobs = st.jobs := by
  rw [runMain_eq_fold] at h
  rcases hfold : foldStep onDisk d.colTracks (initState d) with e | st
  · rw [hfold] at h
    exact absurd h (by simp)
  · rw [hfold] at h
    injection h with h
    rw [Prod.ext_iff] at h
    obtain ⟨hd, hj⟩ := h
    simp only at hd hj
    exact ⟨st, rfl, by rw [← hd], by rw [← hd], by rw [← hd], hj.symm⟩

/-- C4: the id counter starts at `Collection.entries + 1` (see
`initState`), rises by exactly one per clone appended, and the final
`Entries` attribute is the counter minus one; hence the output entries
value equals the input entries value plus the number of new tracks. -/
theorem C4_entriesArithmetic (onDisk : List Char → Bool) (d d' : Doc)
    (jobs : List (List Char × List Char))
    (h : runMain onDisk d = .ok (d', jobs)) :
    ∃ news : List Track,
      d'.colTracks = d.colTracks ++ news ∧
      d'.colEntries = (d.colEntries + 1) + (news.length : Int) - 1 ∧
      d'.colEntries = d.colEntries + (news.length : Int) := by
  obtain ⟨st, hfold, he, hc, _, _⟩ := runMain_ok_elim onDisk d d' jobs h
  obtain ⟨news, hcol, hcur, _⟩ := foldStep_news onDisk d.colTracks (initState d) st hfold
  refine ⟨news, ?_, ?_, ?_⟩
  · rw [hc, hcol]
    rfl
  · rw [he, hcur]
    simp only [initState]
  · rw [he, hcur]
    simp only [initState]
    ring

/-- Witness for C4 on the concrete house scenario. -/
theorem C4_witness :
    runMain houseDisk houseDoc = .ok (houseOut, houseJobs) ∧
    ∃ news : List Track,
      houseOut.colTracks = houseDoc.colTracks ++ news ∧
      houseOut.colEntries = (houseDoc.colEntries + 1) + (news.length : Int) - 1 ∧
      houseOut.colEntries = houseDoc.colEntries + (news.length : Int) :=
  ⟨by decide, C4_entriesArithmetic houseDisk houseDoc houseOut houseJobs (by decide)⟩

/-- C8: every track the pass appends is a full copy of some original
track with exactly the four attributes `TrackID`, `Location`, `Kind`,
`BitRate` overridden — the new id, the re-prefixed encoded `.mp3`
destination path, the `"MP3 File"` label and `"320"` — and all other
metadata (`meta`) identical to the source track's. -/
theorem C8_cloneIsFullCopy (onDisk : List Char → Bool) (d d' : Doc)
    (jobs : List (List Char × List Char))
    (h : runMain onDisk d = .ok (d', jobs))
    (nt : Track) (hnt : nt ∈ d'.colTracks.drop d.colTracks.length) :
    ∃ t ∈ d.colTracks, ∃ n : Int,
      nt.trackID = intToStr n ∧
      nt.location = localhostPfx ++
        escape_for_xml (splitextRoot (decodeLoc t.location) ++ ".mp3".data) ∧
      nt.kind = "MP3 File".data ∧
      nt.bitRate = "320".data ∧
      nt.meta = t.meta := by
  obtain ⟨st, hfold, _, hc, _, _⟩ := runMain_ok_elim onDisk d d' jobs h
  obtain ⟨news, hcol, _, hidx⟩ := foldStep_news onDisk d.colTracks (initState d) st hfold
  have hdrop : d'.colTracks.drop d.colTracks.length = news := by
    rw [hc, hcol]
    exact List.drop_left _ _
  rw [hdrop] at hnt
  obtain ⟨⟨i, hil⟩, hg⟩ := List.mem_iff_get.mp hnt
  have hi : news[i]? = some nt := by
    rw [List.getElem?_eq_getElem hil]
    rw [List.get_eq_getElem] at hg
    rw [hg]
  obtain ⟨hid, t, ht, hsh⟩ := hidx i nt hi
  refine ⟨t, ht, (initState d).currId + (i : Int), hid, ?_, ?_, ?_, ?_⟩ <;>
    rw [hsh] <;> simp [mkClone]

/-- Witness for C8 on the concrete house scenario. -/
theorem C8_witness :
    runMain houseDisk houseDoc = .ok (houseOut, houseJobs) ∧
    houseClone ∈ houseOut.colTracks.drop houseDoc.colTracks.length ∧
    ∃ t ∈ houseDoc.colTracks, ∃ n : Int,
      houseClone.trackID = intToStr n ∧
      houseClone.location = localhostPfx ++
        escape_for_xml (splitextRoot (decodeLoc t.location) ++ ".mp3".data) ∧
      houseClone.kind = "MP3 File".data ∧
      houseClone.bitRate = "320".data ∧
      houseClone.meta = t.meta :=
  ⟨by decide, by decide,
    C8_cloneIsFullCopy houseDisk houseDoc houseOut houseJobs (by decide) houseClone (by decide)⟩

/-- C5: assuming the data-model preconditions — the entries counter
equals the track count, every track id is the canonical decimal of an
integer in `[1, entries]`, and the ids are pairwise distinct — every
track id in the output collection is still unique, because every newly
allocated id prints an integer strictly greater than `entries`, hence
greater than every pre-existing id. -/
theorem C5_idsStayUnique (onDisk : List Char → Bool) (d d' : Doc)
    (jobs : List (List Char × List Char))
    (He : d.colEntries = (d.colTracks.length : Int))
    (Hids : ∀ t ∈ d.colTracks, ∃ k : Int, 1 ≤ k ∧ k ≤ d.colEntries ∧ t.trackID = intToStr k)
    (Hnd : (d.colTracks.map Track.trackID).Nodup)
    (h : runMain onDisk d = .ok (d', jobs)) :
    (d'.colTracks.map Track.trackID).Nodup ∧
    ∀ nt ∈ d'.colTracks.drop d.colTracks.length, ∃ m : Int,
      nt.trackID = intToStr m ∧ d.colEntries < m := by
  obtain ⟨st, hfold, _, hc, _, _⟩ := runMain_ok_elim onDisk d d' jobs h
  obtain ⟨news, hcol, _, hidx⟩ := foldStep_news onDisk d.colTracks (initState d) st hfold
  have he0 : (0 : Int) ≤ d.colEntries := by rw [He]; positivity
  have hcur0 : (initState d).currId = d.colEntries + 1 := rfl
  have hnews : ∀ (i : Nat) (nt : Track), news[i]? = some nt →
      nt.trackID = intToStr (d.colEntries + 1 + (i : Int)) := by
    intro i nt hi
    have := (hidx i nt hi).1
    rwa [hcur0] at this
  have hdoc : d'.colTracks = d.colTracks ++ news := by
    rw [hc, hcol]; rfl
  constructor
  · rw [hdoc, List.map_append, List.nodup_append]
    refine ⟨Hnd, ?_, ?_⟩
    · have hform : news.map Track.trackID =
          (List.range news.length).map (fun (i : Nat) => intToStr (d.colEntries + 1 + (i : Int))) := by
        apply List.ext_getElem?
        intro i
        by_cases hi : i < news.length
        · rw [List.getElem?_map, List.getElem?_eq_getElem hi,
            List.getElem?_map, List.getElem?_range hi]
          rw [Option.map_some', Option.map_some']
          rw [hnews i news[i] (List.getElem?_eq_getElem hi)]
        · rw [List.getElem?_eq_none (by simpa using Nat.le_of_not_lt hi),
            List.getElem?_eq_none (by simpa using Nat.le_of_not_lt hi)]
      rw [hform]
      refine List.Nodup.map_on ?_ (List.nodup_range _)
      intro i hi j hj hij
      have : d.colEntries + 1 + (i : Int) = d.colEntries + 1 + (j : Int) :=
        intToStr_inj_nonneg (by omega) (by omega) hij
      omega
    · intro a ha hb
      obtain ⟨t, ht, rfl⟩ := List.mem_map.mp ha
      obtain ⟨k, hk1, hk2, hkid⟩ := Hids t ht
      obtain ⟨nt, hntmem, hnteq⟩ := List.mem_map.mp hb
      obtain ⟨⟨i, hil⟩, hg⟩ := List.mem_iff_get.mp hntmem
      have hi : news[i]? = some nt := by
        rw [List.getElem?_eq_getElem hil, List.get_eq_getElem] at *
        rw [hg]
      have hid := hnews i nt hi
      rw [hkid] at hnteq
      rw [hid] at hnteq
      have := intToStr_inj_nonneg (by omega) (by omega) hnteq.symm
      omega
  · intro nt hnt
    have hdrop : d'.colTracks.drop d.colTracks.length = news := by
      rw [hdoc]
      exact List.drop_left _ _
    rw [hdrop] at hnt
    obtain ⟨⟨i, hil⟩, hg⟩ := List.mem_iff_get.mp hnt
    have hi : news[i]? = some nt := by
      rw [List.getElem?_eq_getElem hil, List.get_eq_getElem] at *
      rw [hg]
    exact ⟨d.colEntries + 1 + (i : Int), hnews i nt hi, by omega⟩

/-- Witness for C5 on the concrete house scenario. -/
theorem C5_witness :
    runMain houseDisk houseDoc = .ok (houseOut, houseJobs) ∧
    ((houseOut.colTracks.map Track.trackID).Nodup ∧
      ∀ nt ∈ houseOut.colTracks.drop houseDoc.colTracks.length, ∃ m : Int,
        nt.trackID = intToStr m ∧ houseDoc.colEntries < m) := by
  refine ⟨by decide, ?_⟩
  refine C5_idsStayUnique houseDisk houseDoc houseOut houseJobs (by decide) ?_ (by decide) (by decide)
  intro t ht
  refine ⟨1, by decide, by decide, ?_⟩
  have htq : t = houseTrack := by simpa [houseDoc] using ht
  rw [htq]
  decide

/-! ### Structural errors and the positional front end -/

/-- C6 (amended): the script never checks for missing sections as such;
the only structural failure that precedes all mutation is the
positional access `playlists = root[2][0]` at line 90.  Whenever that
access fails — the root has fewer than three children (in particular
the standard three-section layout with either the `COLLECTION` or the
`PLAYLISTS` section removed) or the third child is childless — the run
dies with the input document fully intact: no playlist node and no
track record has been created or modified.  (When line 90 succeeds the
original claim fails both ways: a document with no `PLAYLISTS` section
can complete and write output, and one with no `COLLECTION` section is
mutated by the mirror pass before dying at line 140 — see the
counterexample.) -/
theorem C6_structuralAbort (onDisk : List Char → Bool) (root : XElem)
    (h : (root.children[2]?).bind (fun s2 => s2.children[0]?) = none) :
    mainX onDisk root = .error root := by
  unfold mainX
  split
  · rfl
  · rename_i s2 h2
    split
    · rfl
    · rename_i folder0 h0
      rw [h2] at h
      simp [h0] at h

/-- C6, counterexample to the original claim, on the raw-element model:
(a) `cex6aRoot` has no `PLAYLISTS` section, yet the run completes and an
output document exists — no fatal failure at all; (b) `cex6bRoot` has no
`COLLECTION` section and the run does die, but the document at death
holds one more playlist node than the input — the mirror pass mutated
the document before the failure was raised. -/
theorem C6_counterexample :
    hasSection "PLAYLISTS".data cex6aRoot = false ∧
    isOkX (mainX cex6aDisk cex6aRoot) = true ∧
    hasSection "COLLECTION".data cex6bRoot = false ∧
    isOkX (mainX (fun _ => false) cex6bRoot) = false ∧
    folderSize cex6bRoot = 1 ∧
    folderSize (finalDoc (mainX (fun _ => false) cex6bRoot)) = 2 := by
  decide

/-- Witness for the amended C6: the standard layout with the `PLAYLISTS`
section removed has a two-child root, so line 90 fails and the run dies
with the document untouched. -/
theorem C6_witness :
    ((cut6Root.children[2]?).bind (fun s2 => s2.children[0]?) = none) ∧
    mainX (fun _ => false) cut6Root = .error cut6Root :=
  ⟨rfl, C6_structuralAbort (fun _ => false) cut6Root rfl⟩

/-! ### The mirror-creation pass -/

lemma mirrorStep_cases (ns : List (List Char)) (acc : List PlaylistNode) (p : List Char) :
    mirrorStep ns acc p = acc ∨
    ∃ pl, mirrorStep ns acc p = acc ++ [mkMirror (p ++ mirrorSfx) pl] := by
  unfold mirrorStep
  split
  · exact Or.inl rfl
  · split
    · exact Or.inl rfl
    · split
      · rename_i pl _
        exact Or.inr ⟨pl, rfl⟩
      · exact Or.inl rfl

lemma foldl_mirror_ext (ns : List (List Char)) :
    ∀ (L : List (List Char)) (acc : List PlaylistNode),
      ∃ ext, L.foldl (mirrorStep ns) acc = acc ++ ext := by
  intro L
  induction L with
  | nil => exact fun acc => ⟨[], by simp⟩
  | cons p L ih =>
    intro acc
    rw [List.foldl_cons]
    rcases mirrorStep_cases ns acc p with heq | ⟨pl, heq⟩
    · rw [heq]
      exact ih acc
    · rw [heq]
      obtain ⟨ext, hext⟩ := ih (acc ++ [mkMirror (p ++ mirrorSfx) pl])
      exact ⟨[mkMirror (p ++ mirrorSfx) pl] ++ ext, by rw [hext, List.append_assoc]⟩

lemma mem_foldl_mirror (ns : List (List Char)) (L : List (List Char))
    (acc : List PlaylistNode) (pl : PlaylistNode) (h : pl ∈ acc) :
    pl ∈ L.foldl (mirrorStep ns) acc := by
  obtain ⟨ext, hext⟩ := foldl_mirror_ext ns L acc
  rw [hext]
  exact List.mem_append_left _ h

lemma foldl_mirror_elem (ns : List (List Char)) :
    ∀ (L : List (List Char)) (acc : List PlaylistNode) (pl : PlaylistNode),
      pl ∈ L.foldl (mirrorStep ns) acc →
      pl ∈ acc ∨ lendsWith pl.name mirrorSfx = true := by
  intro L
  induction L with
  | nil => exact fun acc pl h => Or.inl (by simpa using h)
  | cons p L ih =>
    intro acc pl h
    rw [List.foldl_cons] at h
    rcases mirrorStep_cases ns acc p with heq | ⟨pl2, heq⟩
    · rw [heq] at h
      exact ih acc pl h
    · rw [heq] at h
      rcases ih _ pl h with hmem | hend
      · rcases List.mem_append.mp hmem with hacc | hnew
        · exact Or.inl hacc
        · right
          rw [List.mem_singleton.mp hnew]
          exact lendsWith_append_self _ _
      · exact Or.inr hend

lemma mirrorPass_elem (pls : List PlaylistNode) (pl : PlaylistNode)
    (h : pl ∈ mirrorPass pls) :
    pl ∈ pls ∨ lendsWith pl.name mirrorSfx = true :=
  foldl_mirror_elem _ _ pls pl h

lemma countP_eq_one_of_nodup (T : List Char) :
    ∀ l : List (List Char), l.Nodup → T ∈ l →
      l.countP (fun s => s == T) = 1 := by
  intro l
  induction l with
  | nil => intro _ h; simp at h
  | cons a l ih =>
    intro hnd hmem
    obtain ⟨hna, hndl⟩ := List.nodup_cons.mp hnd
    rw [List.countP_cons]
    rcases List.mem_cons.mp hmem with rfl | hmem'
    · rw [List.countP_eq_zero.mpr, if_pos (by simp)]
      intro b hb
      simp only [beq_iff_eq]
      rintro rfl
      exact hna hb
    · rw [ih hndl hmem', if_neg]
      simp only [beq_iff_eq]
      rintro rfl
      exact hna hmem'

lemma mirrorStep_skip_ends (ns : List (List Char)) (acc : List PlaylistNode)
    (p : List Char) (h : lendsWith p mirrorSfx = true) :
    mirrorStep ns acc p = acc := by
  unfold mirrorStep
  rw [if_pos h]

lemma mirrorStep_skip_present (ns : List (List Char)) (acc : List PlaylistNode)
    (p : List Char) (h1 : lendsWith p mirrorSfx = false)
    (h2 : ns.contains (p ++ mirrorSfx) = true) :
    mirrorStep ns acc p = acc := by
  unfold mirrorStep
  rw [if_neg (by simp [h1]), if_pos h2]

lemma mirrorStep_create (ns : List (List Char)) (acc : List PlaylistNode)
    (p : List Char) (pl : PlaylistNode) (h1 : lendsWith p mirrorSfx = false)
    (h2 : ns.contains (p ++ mirrorSfx) = false)
    (h3 : acc.find? (fun q => q.name == p) = some pl) :
    mirrorStep ns acc p = acc ++ [mkMirror (p ++ mirrorSfx) pl] := by
  unfold mirrorStep
  rw [if_neg (by simp [h1]), if_neg (by rw [h2]; simp), h3]

lemma find?_of_name_mem (acc : List PlaylistNode) (p : List Char)
    (h : ∃ pl ∈ acc, pl.name = p) :
    ∃ pl, acc.find? (fun q => q.name == p) = some pl := by
  obtain ⟨pl, hmem, hname⟩ := h
  have : (acc.find? (fun q => q.name == p)).isSome :=
    List.find?_isSome.mpr ⟨pl, hmem, by simp [hname]⟩
  exact Option.isSome_iff_exists.mp this

lemma mirror_complete_aux (pls : List PlaylistNode) :
    ∀ (L : List (List Char)) (acc : List PlaylistNode),
      (∃ u, acc = pls ++ u) →
      ∀ p ∈ L, lendsWith p mirrorSfx = false →
        p ∈ pls.map (fun pl => pl.name) →
        (p ++ mirrorSfx) ∈
          (L.foldl (mirrorStep (pls.map (fun pl => pl.name))) acc).map
            (fun pl => pl.name) := by
  intro L
  induction L with
  | nil => intro acc _ p hp _ _; simp at hp
  | cons q L ih =>
    intro acc hpre p hpL hend hpns
    obtain ⟨u, rfl⟩ := hpre
    rw [List.foldl_cons]
    rcases List.mem_cons.mp hpL with rfl | hpL'
    · -- the processed name is `p` itself
      by_cases h2 : (pls.map (fun pl => pl.name)).contains (p ++ mirrorSfx) = true
      · -- a node of that name already exists in `pls ⊆ acc`
        have : ∃ pl ∈ pls ++ u, pl.name = p ++ mirrorSfx := by
          obtain ⟨pl, hpl, hname⟩ := List.mem_map.mp ((contains_iff_mem _ _).mp h2)
          exact ⟨pl, List.mem_append_left _ hpl, hname⟩
        obtain ⟨pl, hmem, hname⟩ := this
        have hmem' : pl ∈ mirrorStep (pls.map (fun pl => pl.name)) (pls ++ u) p := by
          rcases mirrorStep_cases _ (pls ++ u) p with heq | ⟨pl2, heq⟩ <;>
            rw [heq]
          · exact hmem
          · exact List.mem_append_left _ hmem
        have := mem_foldl_mirror (pls.map (fun pl => pl.name)) L _ pl hmem'
        exact List.mem_map.mpr ⟨pl, this, hname⟩
      · -- it is created now
        have hfind : ∃ pl0, (pls ++ u).find? (fun q2 => q2.name == p) = some pl0 := by
          apply find?_of_name_mem
          obtain ⟨pl0, hpl0, hname0⟩ := List.mem_map.mp hpns
          exact ⟨pl0, List.mem_append_left _ hpl0, hname0⟩
        obtain ⟨pl0, hfind⟩ := hfind
        rw [mirrorStep_create _ _ _ pl0 hend (by simpa using h2) hfind]
        have hmem' : mkMirror (p ++ mirrorSfx) pl0 ∈
            (pls ++ u) ++ [mkMirror (p ++ mirrorSfx) pl0] :=
          List.mem_append_right _ (by simp)
        have := mem_foldl_mirror (pls.map (fun pl => pl.name)) L _ _ hmem'
        exact List.mem_map.mpr ⟨_, this, rfl⟩
    · -- `p` is processed later
      rcases mirrorStep_cases (pls.map (fun pl => pl.name)) (pls ++ u) q with heq | ⟨pl2, heq⟩ <;>
        rw [heq]
      · exact ih _ ⟨u, rfl⟩ p hpL' hend hpns
      · exact ih _ ⟨u ++ [mkMirror (q ++ mirrorSfx) pl2], by rw [List.append_assoc]⟩ p hpL' hend hpns

lemma mirror_complete (pls : List PlaylistNode) (p : List Char)
    (hp : p ∈ pls.map (fun pl => pl.name)) (hend : lendsWith p mirrorSfx = false) :
    (p ++ mirrorSfx) ∈ (mirrorPass pls).map (fun pl => pl.name) := by
  unfold mirrorPass
  exact mirror_complete_aux pls (pls.map (fun pl => pl.name)) pls ⟨[], by simp⟩ p hp hend hp

lemma mirror_count_stable (pls : List PlaylistNode) (T : List Char)
    (hT : T ∈ pls.map (fun pl => pl.name)) :
    ∀ (L : List (List Char)) (acc : List PlaylistNode),
      ((L.foldl (mirrorStep (pls.map (fun pl => pl.name))) acc).map
          (fun pl => pl.name)).countP (fun s => s == T)
        = (acc.map (fun pl => pl.name)).countP (fun s => s == T) := by
  intro L
  induction L with
  | nil => intro acc; rfl
  | cons q L ih =>
    intro acc
    rw [List.foldl_cons]
    by_cases h1 : lendsWith q mirrorSfx = true
    · rw [mirrorStep_skip_ends _ _ _ h1, ih]
    · by_cases h2 : (pls.map (fun pl => pl.name)).contains (q ++ mirrorSfx) = true
      · rw [mirrorStep_skip_present _ _ _ (by simpa using h1) h2, ih]
      · rcases hfind : acc.find? (fun q2 => q2.name == q) with _ | pl
        · have : mirrorStep (pls.map (fun pl => pl.name)) acc q = acc := by
            unfold mirrorStep
            rw [if_neg (by simpa using h1), if_neg (by simpa using h2), hfind]
          rw [this, ih]
        · rw [mirrorStep_create _ _ _ pl (by simpa using h1) (by simpa using h2) hfind, ih]
          have hne : ¬ ((mkMirror (q ++ mirrorSfx) pl).name == T) = true := by
            simp only [mkMirror, beq_iff_eq]
            rintro rfl
            exact h2 ((contains_iff_mem _ _).mpr hT)
          simp [List.countP_append, List.countP_cons, hne]

lemma mirror_count_create (pls : List PlaylistNode) (P : PlaylistNode)
    (hPm : lendsWith P.name mirrorSfx = false)
    (hT : (P.name ++ mirrorSfx) ∉ pls.map (fun pl => pl.name)) :
    ∀ (L : List (List Char)) (acc : List PlaylistNode),
      (∃ u, acc = pls ++ u) → (∀ q ∈ L, q ∈ pls.map (fun pl => pl.name)) →
      ((L.foldl (mirrorStep (pls.map (fun pl => pl.name))) acc).map
          (fun pl => pl.name)).countP (fun s => s == P.name ++ mirrorSfx)
        = (acc.map (fun pl => pl.name)).countP (fun s => s == P.name ++ mirrorSfx)
          + L.countP (fun s => s == P.name) := by
  intro L
  induction L with
  | nil => intro acc _ _; simp
  | cons q L ih =>
    intro acc hpre hsub
    obtain ⟨u, rfl⟩ := hpre
    rw [List.foldl_cons, List.countP_cons]
    by_cases h1 : lendsWith q mirrorSfx = true
    · have hqne : ¬ (q == P.name) = true := by
        simp only [beq_iff_eq]
        rintro rfl
        rw [h1] at hPm
        exact absurd hPm (by simp)
      rw [mirrorStep_skip_ends _ _ _ h1, if_neg hqne,
        ih (pls ++ u) ⟨u, rfl⟩ (fun x hx => hsub x (by simp [hx]))]
      omega
    · by_cases h2 : (pls.map (fun pl => pl.name)).contains (q ++ mirrorSfx) = true
      · have hqne : ¬ (q == P.name) = true := by
          simp only [beq_iff_eq]
          rintro rfl
          exact hT ((contains_iff_mem _ _).mp h2)
        rw [mirrorStep_skip_present _ _ _ (by simpa using h1) h2, if_neg hqne,
          ih (pls ++ u) ⟨u, rfl⟩ (fun x hx => hsub x (by simp [hx]))]
        omega
      · have hqns : q ∈ pls.map (fun pl => pl.name) := hsub q (by simp)
        have hexists : ∃ pl2 ∈ pls ++ u, pl2.name = q := by
          obtain ⟨pl0, hpl0, hname0⟩ := List.mem_map.mp hqns
          exact ⟨pl0, List.mem_append_left _ hpl0, hname0⟩
        obtain ⟨pl0, hfind⟩ := find?_of_name_mem (pls ++ u) q hexists
        rw [mirrorStep_create _ _ _ pl0 (by simpa using h1) (by simpa using h2) hfind,
          ih _ ⟨u ++ [mkMirror (q ++ mirrorSfx) pl0], by rw [List.append_assoc]⟩
            (fun x hx => hsub x (by simp [hx]))]
        rw [List.map_append, List.countP_append]
        by_cases hq : q = P.name
        · simp only [mkMirror, hq, List.map_cons, List.map_nil, List.countP_cons,
            List.countP_nil, beq_self_eq_true, if_pos]
          omega
        · have hne2 : ¬ (q ++ mirrorSfx = P.name ++ mirrorSfx) :=
            fun hcontra => hq (List.append_cancel_right hcontra)
          simp only [mkMirror, List.map_cons, List.map_nil, List.countP_cons, List.countP_nil]
          rw [if_neg (by simp [hne2]), if_neg (by simp [hq])]
          omega

lemma mirror_noop (ns' : List (List Char)) :
    ∀ (L : List (List Char)) (acc : List PlaylistNode),
      (∀ q ∈ L, lendsWith q mirrorSfx = true ∨ ns'.contains (q ++ mirrorSfx) = true) →
      L.foldl (mirrorStep ns') acc = acc := by
  intro L
  induction L with
  | nil => intro acc _; rfl
  | cons q L ih =>
    intro acc h
    rw [List.foldl_cons]
    by_cases he : lendsWith q mirrorSfx = true
    · rw [mirrorStep_skip_ends _ _ _ he]
      exact ih acc (fun x hx => h x (by simp [hx]))
    · rcases h q (by simp) with h1 | h2
      · exact absurd h1 he
      · rw [mirrorStep_skip_present _ _ _ (by simpa using he) h2]
        exact ih acc (fun x hx => h x (by simp [hx]))

/-- C3: for every playlist `P` of the input section (with the data-model
uniqueness of playlist names) whose name is not already mirror-suffixed,
exactly one node named `P.name ++ "_MP3"` exists after the mirror pass —
a pre-existing node of that name suppresses creation — and running the
pass a second time is the identity on its own output: no playlist is
appended. -/
theorem C3_mirrorOnceAndIdempotent (pls : List PlaylistNode)
    (hnd : (pls.map (fun pl => pl.name)).Nodup)
    (P : PlaylistNode) (hP : P ∈ pls) (hPm : lendsWith P.name mirrorSfx = false) :
    ((mirrorPass pls).map (fun pl => pl.name)).countP
        (fun s => s == P.name ++ mirrorSfx) = 1 ∧
    mirrorPass (mirrorPass pls) = mirrorPass pls := by
  constructor
  · by_cases hmem : (P.name ++ mirrorSfx) ∈ pls.map (fun pl => pl.name)
    · unfold mirrorPass
      rw [mirror_count_stable pls _ hmem]
      exact countP_eq_one_of_nodup _ _ hnd hmem
    · unfold mirrorPass
      rw [mirror_count_create pls P hPm hmem _ pls ⟨[], by simp⟩ (fun q hq => hq)]
      have h0 : (pls.map (fun pl => pl.name)).countP
          (fun s => s == P.name ++ mirrorSfx) = 0 := by
        apply List.countP_eq_zero.mpr
        intro a ha
        simp only [beq_iff_eq]
        rintro rfl
        exact hmem ha
      have h1 : (pls.map (fun pl => pl.name)).countP (fun s => s == P.name) = 1 :=
        countP_eq_one_of_nodup _ _ hnd (List.mem_map.mpr ⟨P, hP, rfl⟩)
      rw [h0, h1]
  · conv_lhs => rw [mirrorPass]
    apply mirror_noop
    intro q hq
    obtain ⟨pl, hplmem, rfl⟩ := List.mem_map.mp hq
    rcases mirrorPass_elem pls pl hplmem with hin | hendq
    · by_cases he : lendsWith pl.name mirrorSfx = true
      · exact Or.inl he
      · right
        apply (contains_iff_mem _ _).mpr
        exact mirror_complete pls pl.name (List.mem_map.mpr ⟨pl, hin, rfl⟩) (by simpa using he)
    · exact Or.inl hendq

/-- Witness for C3 on the house scenario's playlist section. -/
theorem C3_witness :
    (houseDoc.playlists.map (fun pl => pl.name)).Nodup ∧
    (⟨"House".data, some "1".data, some "7".data, some "1".data,
      ["1".data]⟩ : PlaylistNode) ∈ houseDoc.playlists ∧
    lendsWith "House".data mirrorSfx = false ∧
    (((mirrorPass houseDoc.playlists).map (fun pl => pl.name)).countP
        (fun s => s == "House".data ++ mirrorSfx) = 1 ∧
      mirrorPass (mirrorPass houseDoc.playlists) = mirrorPass houseDoc.playlists) :=
  ⟨by decide, by decide, by decide,
    C3_mirrorOnceAndIdempotent houseDoc.playlists (by decide)
      ⟨"House".data, some "1".data, some "7".data, some "1".data, ["1".data]⟩
      (by decide) (by decide)⟩

/-! ### The live playlist state against the fixed post-mirror list -/

lemma lowId_ne_highKey {e : Int} {s s' : List Char}
    (hl : lowId e s) (hh : highKey e s') : s ≠ s' := by
  obtain ⟨k, hk1, hk2, rfl⟩ := hl
  obtain ⟨m, hm, rfl⟩ := hh
  intro h
  have := intToStr_inj_nonneg (by omega) (by omega) h
  omega

lemma PState_names {e : Int} {P0 pls : List PlaylistNode} {f : Nat → List (List Char)}
    (h : PState e P0 pls f) :
    pls.map (fun pl => pl.name) = P0.map (fun pl => pl.name) := by
  obtain ⟨hlen, hget, _⟩ := h
  apply List.ext_getElem?
  intro j
  rw [List.getElem?_map, List.getElem?_map, hget j]
  rcases P0[j]? with _ | q <;> rfl

lemma PState_node {e : Int} {P0 pls : List PlaylistNode} {f : Nat → List (List Char)}
    (h : PState e P0 pls f) (j : Nat) (q : PlaylistNode) (hq : P0[j]? = some q) :
    pls[j]? = some { q with tracks := q.tracks ++ f j } := by
  rw [h.2.1 j, hq]
  rfl

lemma contains_append_high {e : Int} (origId : List Char) (horig : lowId e origId)
    (ks : List (List Char)) (hks : ∀ s ∈ ks, highKey e s) (ts : List (List Char)) :
    (ts ++ ks).contains origId = ts.contains origId := by
  have hknot : origId ∉ ks := by
    intro hmem
    exact lowId_ne_highKey horig (hks origId hmem) rfl
  cases hts : ts.contains origId
  · have h1 : origId ∉ ts := by
      intro hmem
      rw [(contains_iff_mem ts origId).mpr hmem] at hts
      exact absurd hts (by simp)
    have : origId ∉ ts ++ ks := by
      intro hmem
      rcases List.mem_append.mp hmem with h' | h'
      · exact h1 h'
      · exact hknot h'
    cases hc : (ts ++ ks).contains origId
    · rfl
    · exact absurd ((contains_iff_mem _ _).mp hc) this
  · exact (contains_iff_mem _ _).mpr
      (List.mem_append_left _ ((contains_iff_mem _ _).mp hts))

lemma PState_contains {e : Int} {P0 pls : List PlaylistNode} {f : Nat → List (List Char)}
    (h : PState e P0 pls f) (origId : List Char) (horig : lowId e origId)
    (j : Nat) (q : PlaylistNode) (hq : P0[j]? = some q)
    (pl : PlaylistNode) (hpl : pls[j]? = some pl) :
    pl.tracks.contains origId = q.tracks.contains origId := by
  rw [PState_node h j q hq] at hpl
  injection hpl with hpl
  rw [← hpl]
  exact contains_append_high origId horig (f j) (h.2.2 j) q.tracks

lemma PState_lfind {e : Int} {P0 pls : List PlaylistNode} {f : Nat → List (List Char)}
    (h : PState e P0 pls f) (nm : List Char) :
    lfindIdx (fun r => r.name == nm) pls = lfindIdx (fun r => r.name == nm) P0 := by
  have h1 := lfindIdx_map (fun pl : PlaylistNode => pl.name) (fun s => s == nm) pls
  have h2 := lfindIdx_map (fun pl : PlaylistNode => pl.name) (fun s => s == nm) P0
  rw [← h1, ← h2, PState_names h]

lemma feedsB_ge {P0 : List PlaylistNode} {origId : List Char} {i : Nat}
    (h : P0.length ≤ i) (j : Nat) : feedsB P0 origId i j = false := by
  unfold feedsB
  rw [show P0.length - i = 0 from by omega]
  rfl

lemma feedsB_step {P0 : List PlaylistNode} {origId : List Char} {i : Nat}
    (hi : i < P0.length) (q : PlaylistNode) (hq : P0[i]? = some q) (j : Nat) :
    feedsB P0 origId i j =
      ((q.tracks.contains origId &&
          (lfindIdx (fun r => r.name == q.name ++ mirrorSfx) P0 == some j)) ||
        feedsB P0 origId (i + 1) j) := by
  unfold feedsB
  rw [show P0.length - i = (P0.length - (i + 1)) + 1 from by omega]
  simp [feedsFrom, hq]

lemma anyRefB_ge {P0 : List PlaylistNode} {origId : List Char} {i : Nat}
    (h : P0.length ≤ i) : anyRefB P0 origId i = false := by
  unfold anyRefB
  rw [show P0.length - i = 0 from by omega]
  rfl

lemma anyRefB_step {P0 : List PlaylistNode} {origId : List Char} {i : Nat}
    (hi : i < P0.length) (q : PlaylistNode) (hq : P0[i]? = some q) :
    anyRefB P0 origId i = (q.tracks.contains origId || anyRefB P0 origId (i + 1)) := by
  unfold anyRefB
  rw [show P0.length - i = (P0.length - (i + 1)) + 1 from by omega]
  simp [anyRefFrom, hq]

lemma allFoundB_ge {P0 : List PlaylistNode} {origId : List Char} {i : Nat}
    (h : P0.length ≤ i) : allFoundB P0 origId i = true := by
  unfold allFoundB
  rw [show P0.length - i = 0 from by omega]
  rfl

lemma allFoundB_step {P0 : List PlaylistNode} {origId : List Char} {i : Nat}
    (hi : i < P0.length) (q : PlaylistNode) (hq : P0[i]? = some q) :
    allFoundB P0 origId i =
      ((!q.tracks.contains origId ||
          (lfindIdx (fun r => r.name == q.name ++ mirrorSfx) P0).isSome) &&
        allFoundB P0 origId (i + 1)) := by
  unfold allFoundB
  rw [show P0.length - i = (P0.length - (i + 1)) + 1 from by omega]
  simp [allFoundFrom, hq]

lemma PState_congr {e : Int} {P0 pls : List PlaylistNode}
    {f g : Nat → List (List Char)} (hfg : ∀ j, f j = g j)
    (h : PState e P0 pls f) : PState e P0 pls g := by
  obtain ⟨h1, h2, h3⟩ := h
  refine ⟨h1, fun j => ?_, fun j => by rw [← hfg j]; exact h3 j⟩
  rw [h2 j, ← hfg j]

lemma PState_updAt {e : Int} {P0 pls : List PlaylistNode}
    {f : Nat → List (List Char)} (h : PState e P0 pls f)
    (j : Nat) (cstr : List Char) (hcstr : highKey e cstr) :
    PState e P0 (updAt j (appendKey cstr) pls)
      (fun j' => if j' = j then f j' ++ [cstr] else f j') := by
  obtain ⟨h1, h2, h3⟩ := h
  refine ⟨by rw [updAt_length, h1], fun j' => ?_, fun j' s hs => ?_⟩
  · rw [updAt_getElem?, h2 j']
    by_cases hj : j' = j
    · subst hj
      rw [if_pos rfl, Option.map_map]
      rcases P0[j']? with _ | q
      · rfl
      · simp [appendKey]
    · rw [if_neg hj]
      rcases P0[j']? with _ | q
      · rfl
      · simp [hj]
  · have hs' : s ∈ (if j' = j then f j' ++ [cstr] else f j') := hs
    by_cases hj : j' = j
    · rw [if_pos hj] at hs'
      rcases List.mem_append.mp hs' with h' | h'
      · exact h3 j' s h'
      · rw [List.mem_singleton.mp h']
        exact hcstr
    · rw [if_neg hj] at hs'
      exact h3 j' s hs'

lemma nodup_getElem?_inj {l : List (List Char)} (h : l.Nodup) {i i' : Nat}
    {x : List Char} (h1 : l[i]? = some x) (h2 : l[i']? = some x) : i = i' := by
  obtain ⟨hi, hx⟩ := List.getElem?_eq_some_iff.mp h1
  obtain ⟨hi', hx'⟩ := List.getElem?_eq_some_iff.mp h2
  exact (List.Nodup.getElem_inj_iff h).mp (hx.trans hx'.symm)

lemma feedsFrom_exists {P0 : List PlaylistNode} {origId : List Char} :
    ∀ (r i j : Nat), feedsFrom P0 origId r i j = true →
      ∃ idx, i ≤ idx ∧ ∃ q, P0[idx]? = some q ∧ q.tracks.contains origId = true ∧
        lfindIdx (fun x => x.name == q.name ++ mirrorSfx) P0 = some j := by
  intro r
  induction r with
  | zero => intro i j h; simp [feedsFrom] at h
  | succ r ih =>
    intro i j h
    rw [feedsFrom] at h
    rcases Bool.or_eq_true_iff.mp h with hl | hr
    · rcases hq : P0[i]? with _ | q
      · rw [hq] at hl; simp at hl
      · rw [hq] at hl
        obtain ⟨hc, htar⟩ := Bool.and_eq_true_iff.mp hl
        exact ⟨i, le_refl _, q, hq, hc, by simpa using htar⟩
    · obtain ⟨idx, hidx, rest⟩ := ih (i + 1) j hr
      exact ⟨idx, by omega, rest⟩

lemma feedsB_later_false {P0 : List PlaylistNode} {origId : List Char}
    (hnd : (P0.map (fun pl => pl.name)).Nodup)
    {i j : Nat} {q : PlaylistNode} (hq : P0[i]? = some q)
    (htar : lfindIdx (fun r => r.name == q.name ++ mirrorSfx) P0 = some j)
    {i' : Nat} (hii : i < i') : feedsB P0 origId i' j = false := by
  cases hfb : feedsB P0 origId i' j
  · rfl
  · exfalso
    obtain ⟨idx, hidx, q', hq', _, htar'⟩ := feedsFrom_exists _ i' j hfb
    obtain ⟨a, haP, hap⟩ := lfindIdx_some _ P0 j htar
    obtain ⟨a', haP', hap'⟩ := lfindIdx_some _ P0 j htar'
    have haa : a = a' := by
      rw [haP] at haP'
      exact (Option.some.injEq .. ▸ haP').symm ▸ rfl
    have hn1 : a.name = q.name ++ mirrorSfx := by simpa using hap
    have hn2 : a.name = q'.name ++ mirrorSfx := by rw [haa]; simpa using hap'
    have hqq : q.name = q'.name := List.append_cancel_right (hn1.symm.trans hn2)
    have hidxeq : i = idx := by
      apply nodup_getElem?_inj hnd (x := q.name)
      · rw [List.getElem?_map, hq]; rfl
      · rw [List.getElem?_map, hq', Option.map_some', hqq]
    omega

lemma innerLoop_spec (e : Int) (P0 : List PlaylistNode)
    (hnd : (P0.map (fun pl => pl.name)).Nodup) (origId cstr : List Char)
    (horig : lowId e origId) (hcstr : highKey e cstr) :
    ∀ (F i : Nat) (pls : List PlaylistNode) (f : Nat → List (List Char)) (b : Bool),
      PState e P0 pls f → P0.length - i < F →
      (allFoundB P0 origId i = true →
        ∃ pls', innerLoop origId cstr F i pls b = .ok (b || anyRefB P0 origId i, pls') ∧
          PState e P0 pls'
            (fun j => f j ++ (if feedsB P0 origId i j then [cstr] else []))) ∧
      (allFoundB P0 origId i = false →
        innerLoop origId cstr F i pls b = .error ()) := by
  intro F
  induction F with
  | zero =>
    intro i pls f b _ hF
    omega
  | succ F ih =>
    intro i pls f b hst hF
    by_cases hi : i < pls.length
    · have hilen : i < P0.length := by rw [← hst.1]; exact hi
      have hq : P0[i]? = some (P0[i]) := List.getElem?_eq_getElem hilen
      have hnode : pls[i]? = some { P0[i] with tracks := (P0[i]).tracks ++ f i } :=
        PState_node hst i _ hq
      have hgeq : pls[i]? = some (pls.get ⟨i, hi⟩) := by
        rw [List.get_eq_getElem]
        exact List.getElem?_eq_getElem hi
      rw [hgeq] at hnode
      have hget := Option.some.inj hnode
      have hcont : ((pls.get ⟨i, hi⟩).tracks.contains origId)
          = ((P0[i]).tracks.contains origId) := by
        rw [hget]
        exact contains_append_high origId horig (f i) (hst.2.2 i) _
      have hname : (pls.get ⟨i, hi⟩).name = (P0[i]).name := by rw [hget]
      simp only [innerLoop]
      rw [dif_pos hi, hcont, hname, PState_lfind hst ((P0[i]).name ++ mirrorSfx)]
      by_cases href : (P0[i]).tracks.contains origId = true
      · rw [if_pos href]
        rcases htar : lfindIdx (fun r => r.name == (P0[i]).name ++ mirrorSfx) P0 with _ | j
        · rw [htar]
          constructor
          · intro hAF
            rw [allFoundB_step hilen _ hq, htar, href] at hAF
            simp at hAF
          · intro _
            rfl
        · rw [htar]
          have hst' := PState_updAt hst j cstr hcstr
          have ihres := ih (i + 1) (updAt j (appendKey cstr) pls)
            (fun j' => if j' = j then f j' ++ [cstr] else f j') true hst' (by omega)
          constructor
          · intro hAF
            have hAF' : allFoundB P0 origId (i + 1) = true := by
              rw [allFoundB_step hilen _ hq, htar] at hAF
              simpa [href] using hAF
            obtain ⟨pls', hrun, hps⟩ := ihres.1 hAF'
            refine ⟨pls', ?_, ?_⟩
            · have hbool : (true || anyRefB P0 origId (i + 1))
                  = (b || anyRefB P0 origId i) := by
                rw [anyRefB_step hilen _ hq, href]
                simp
              rw [← hbool]
              exact hrun
            · apply PState_congr _ hps
              intro j2
              show (if j2 = j then f j2 ++ [cstr] else f j2) ++
                  (if feedsB P0 origId (i + 1) j2 = true then [cstr] else []) =
                f j2 ++ (if feedsB P0 origId i j2 = true then [cstr] else [])
              by_cases hj : j2 = j
              · subst hj
                rw [if_pos rfl, feedsB_step hilen _ hq j2,
                  feedsB_later_false hnd hq htar (show i < i + 1 by omega)]
                simp [htar, (contains_iff_mem _ _).mp href]
              · rw [if_neg hj, feedsB_step hilen _ hq j2]
                simp [htar, Ne.symm hj]
          · intro hAFf
            have hAFf' : allFoundB P0 origId (i + 1) = false := by
              rw [allFoundB_step hilen _ hq, htar] at hAFf
              simpa [href] using hAFf
            exact ihres.2 hAFf'
      · have hrf : (P0[i]).tracks.contains origId = false := by
          simpa using href
        have hnm : origId ∉ (P0[i]).tracks := by
          intro hm
          rw [(contains_iff_mem _ _).mpr hm] at hrf
          exact absurd hrf (by simp)
        rw [if_neg href]
        have ihres := ih (i + 1) pls f b hst (by omega)
        constructor
        · intro hAF
          have hAF' : allFoundB P0 origId (i + 1) = true := by
            rw [allFoundB_step hilen _ hq] at hAF
            simpa [hnm] using hAF
          obtain ⟨pls', hrun, hps⟩ := ihres.1 hAF'
          refine ⟨pls', ?_, ?_⟩
          · rw [hrun, anyRefB_step hilen _ hq, hrf]
            simp
          · apply PState_congr _ hps
            intro j'
            rw [feedsB_step hilen _ hq j', hrf]
            simp
        · intro hAFf
          have hAFf' : allFoundB P0 origId (i + 1) = false := by
            rw [allFoundB_step hilen _ hq] at hAFf
            simpa [hnm] using hAFf
          exact ihres.2 hAFf'
    · have hile : P0.length ≤ i := by rw [← hst.1]; omega
      constructor
      · intro _
        refine ⟨pls, ?_, ?_⟩
        · simp only [innerLoop]
          rw [dif_neg hi, anyRefB_ge hile]
          simp
        · apply PState_congr _ hst
          intro j'
          rw [feedsB_ge hile j']
          simp
      · intro hAFf
        rw [allFoundB_ge hile] at hAFf
        exact absurd hAFf (by simp)

lemma anyRefFrom_exists {P0 : List PlaylistNode} {origId : List Char} :
    ∀ (r i : Nat), anyRefFrom P0 origId r i = true →
      ∃ idx q, i ≤ idx ∧ P0[idx]? = some q ∧ q.tracks.contains origId = true := by
  intro r
  induction r with
  | zero => intro i h; simp [anyRefFrom] at h
  | succ r ih =>
    intro i h
    rw [anyRefFrom] at h
    rcases Bool.or_eq_true_iff.mp h with hl | hr
    · rcases hq : P0[i]? with _ | q
      · rw [hq] at hl; simp at hl
      · rw [hq] at hl
        exact ⟨i, q, le_refl _, hq, hl⟩
    · obtain ⟨idx, q, hidx, rest⟩ := ih (i + 1) hr
      exact ⟨idx, q, by omega, rest⟩

lemma anyRefFrom_of_exists {P0 : List PlaylistNode} {origId : List Char} :
    ∀ (r i idx : Nat) (q : PlaylistNode), i ≤ idx → idx < i + r →
      P0[idx]? = some q → q.tracks.contains origId = true →
      anyRefFrom P0 origId r i = true := by
  intro r
  induction r with
  | zero => intro i idx q h1 h2 _ _; omega
  | succ r ih =>
    intro i idx q h1 h2 hq hc
    rw [anyRefFrom]
    by_cases hii : idx = i
    · subst hii
      simp [hq]
      exact Or.inl ((contains_iff_mem _ _).mp hc)
    · rw [Bool.or_eq_true_iff]
      exact Or.inr (ih (i + 1) idx q (by omega) (by omega) hq hc)

lemma anyRefB_eq_any (P0 : List PlaylistNode) (origId : List Char) :
    anyRefB P0 origId 0 = P0.any (fun pl => pl.tracks.contains origId) := by
  cases hx : P0.any (fun pl => pl.tracks.contains origId)
  · cases hy : anyRefB P0 origId 0
    · rfl
    · exfalso
      obtain ⟨idx, q, _, hq, hc⟩ := anyRefFrom_exists _ 0 hy
      obtain ⟨hlt, hget⟩ := List.getElem?_eq_some_iff.mp hq
      have : P0.any (fun pl => pl.tracks.contains origId) = true :=
        List.any_eq_true.mpr ⟨q, hget ▸ List.getElem_mem hlt, hc⟩
      rw [hx] at this
      exact absurd this (by simp)
  · obtain ⟨pl, hmem, hc⟩ := List.any_eq_true.mp hx
    obtain ⟨⟨idx, hlt⟩, hg⟩ := List.mem_iff_get.mp hmem
    rw [List.get_eq_getElem] at hg
    unfold anyRefB
    exact anyRefFrom_of_exists (P0.length - 0) 0 idx pl (by omega) (by omega)
      (by rw [List.getElem?_eq_getElem hlt, hg]) hc

lemma feedsB_false_of_noRef {P0 : List PlaylistNode} {origId : List Char}
    (h : anyRefB P0 origId 0 = false) (j : Nat) : feedsB P0 origId 0 j = false := by
  cases hf : feedsB P0 origId 0 j
  · rfl
  · exfalso
    obtain ⟨idx, hidx, q, hq, hc, _⟩ := feedsFrom_exists _ 0 j hf
    have : anyRefB P0 origId 0 = true := by
      unfold anyRefB
      obtain ⟨hlt, _⟩ := List.getElem?_eq_some_iff.mp hq
      exact anyRefFrom_of_exists _ 0 idx q (by omega) (by omega) hq hc
    rw [h] at this
    exact absurd this (by simp)

lemma allFoundFrom_false_exists {P0 : List PlaylistNode} {origId : List Char} :
    ∀ (r i : Nat), allFoundFrom P0 origId r i = false →
      ∃ idx q, i ≤ idx ∧ P0[idx]? = some q ∧ q.tracks.contains origId = true := by
  intro r
  induction r with
  | zero => intro i h; simp [allFoundFrom] at h
  | succ r ih =>
    intro i h
    rw [allFoundFrom] at h
    rcases Bool.and_eq_false_iff.mp h with hl | hr
    · rcases hq : P0[i]? with _ | q
      · rw [hq] at hl; simp at hl
      · rw [hq] at hl
        obtain ⟨h1, _⟩ := Bool.or_eq_false_iff.mp hl
        exact ⟨i, q, le_refl _, hq, by simpa using h1⟩
    · obtain ⟨idx, q, hidx, rest⟩ := ih (i + 1) hr
      exact ⟨idx, q, by omega, rest⟩

lemma allFoundB_of_noRef {P0 : List PlaylistNode} {origId : List Char}
    (h : anyRefB P0 origId 0 = false) : allFoundB P0 origId 0 = true := by
  cases hAF : allFoundB P0 origId 0
  · exfalso
    obtain ⟨idx, q, _, hq, hc⟩ := allFoundFrom_false_exists _ 0 hAF
    have : anyRefB P0 origId 0 = true := by
      unfold anyRefB
      exact anyRefFrom_of_exists _ 0 idx q (by omega)
        (by obtain ⟨hlt, _⟩ := List.getElem?_eq_some_iff.mp hq; omega) hq hc
    rw [h] at this
    exact absurd this (by simp)
  · rfl

lemma stepTrack_spec (e : Int) (P0 : List PlaylistNode)
    (hnd : (P0.map (fun pl => pl.name)).Nodup) (onDisk : List Char → Bool)
    (st : TState) (f : Nat → List (List Char)) (t : Track)
    (hst : PState e P0 st.playlists f)
    (horig : lowId e t.trackID) (hc : e + 1 ≤ st.currId) :
    (convCond onDisk P0 t = true → allFoundB P0 t.trackID 0 = true →
      ∃ pls', stepTrack onDisk st t = .ok
        ({ currId := st.currId + 1
           colTracks := st.colTracks ++ [mkClone t st.currId (mp3PathOf t)]
           playlists := pls'
           jobs := dictSet (decodeLoc t.location) (mp3PathOf t) st.jobs },
         [mkClone t st.currId (mp3PathOf t)]) ∧
        PState e P0 pls'
          (fun j => f j ++ (if feedsB P0 t.trackID 0 j then [intToStr st.currId] else []))) ∧
    (convCond onDisk P0 t = false →
      ∃ pls', stepTrack onDisk st t = .ok ({ st with playlists := pls' }, []) ∧
        PState e P0 pls' f) ∧
    (convCond onDisk P0 t = true → allFoundB P0 t.trackID 0 = false →
      stepTrack onDisk st t = .error ()) := by
  have hcstr : highKey e (intToStr st.currId) := ⟨st.currId, hc, rfl⟩
  have hlen : P0.length - 0 < st.playlists.length + 1 := by
    rw [← hst.1]
    omega
  have hinner := innerLoop_spec e P0 hnd t.trackID (intToStr st.currId) horig hcstr
    (st.playlists.length + 1) 0 st.playlists f false hst hlen
  by_cases hext : lowerStr (splitextExt t.location) = ".flac".data
  · by_cases hdisk : onDisk (decodeLoc t.location) = true
    · have hstep : stepTrack onDisk st t =
          (match innerLoop t.trackID (intToStr st.currId)
              (st.playlists.length + 1) 0 st.playlists false with
           | .error e => .error e
           | .ok (inPl, pls') =>
             if ¬ inPl then .ok ({ st with playlists := pls' }, [])
             else .ok ({ currId := st.currId + 1
                         colTracks := st.colTracks ++
                           [mkClone t st.currId (splitextRoot (decodeLoc t.location) ++ ".mp3".data)]
                         playlists := pls'
                         jobs := dictSet (decodeLoc t.location)
                           (splitextRoot (decodeLoc t.location) ++ ".mp3".data) st.jobs },
                [mkClone t st.currId (splitextRoot (decodeLoc t.location) ++ ".mp3".data)])) := by
        unfold stepTrack
        rw [if_neg (by simp [hext]), if_neg (by simp [hdisk])]
      by_cases hAF : allFoundB P0 t.trackID 0 = true
      · obtain ⟨pls', hrun, hps⟩ := hinner.1 hAF
        by_cases hmem : P0.any (fun pl => pl.tracks.contains t.trackID) = true
        · have hb : (false || anyRefB P0 t.trackID 0) = true := by
            rw [anyRefB_eq_any, Bool.false_or]
            exact hmem
          rw [hb] at hrun
          rw [hrun] at hstep
          refine ⟨?_, ?_, ?_⟩
          · intro _ _
            exact ⟨pls', by rw [hstep]; rfl, hps⟩
          · intro hccf
            have hct : convCond onDisk P0 t = true := by
              rw [convCond, Bool.and_eq_true, Bool.and_eq_true]
              exact ⟨⟨by simp [hext], hdisk⟩, hmem⟩
            rw [hct] at hccf
            exact absurd hccf (by simp)
          · intro _ hAFf
            rw [hAF] at hAFf
            exact absurd hAFf (by simp)
        · have hb : (false || anyRefB P0 t.trackID 0) = false := by
            rw [anyRefB_eq_any]
            simpa using hmem
          have hnoref : anyRefB P0 t.trackID 0 = false := by simpa using hb
          rw [hb] at hrun
          rw [hrun] at hstep
          refine ⟨?_, ?_, ?_⟩
          · intro hcc _
            rw [convCond, Bool.and_eq_true, Bool.and_eq_true] at hcc
            exact absurd hcc.2 hmem
          · intro _
            refine ⟨pls', by rw [hstep]; rfl, ?_⟩
            apply PState_congr _ hps
            intro j
            rw [feedsB_false_of_noRef hnoref j]
            simp
          · intro hcc _
            rw [convCond, Bool.and_eq_true, Bool.and_eq_true] at hcc
            exact absurd hcc.2 hmem
      · have herr := hinner.2 (by simpa using hAF)
        rw [herr] at hstep
        have hmemB : anyRefB P0 t.trackID 0 = true := by
          cases hr : anyRefB P0 t.trackID 0
          · exact absurd (allFoundB_of_noRef hr) hAF
          · rfl
        have hmem : P0.any (fun pl => pl.tracks.contains t.trackID) = true := by
          rw [← anyRefB_eq_any]
          exact hmemB
        refine ⟨?_, ?_, ?_⟩
        · intro _ hAFt
          exact absurd hAFt hAF
        · intro hccf
          have hct : convCond onDisk P0 t = true := by
            rw [convCond, Bool.and_eq_true, Bool.and_eq_true]
            exact ⟨⟨by simp [hext], hdisk⟩, hmem⟩
          rw [hct] at hccf
          exact absurd hccf (by simp)
        · intro _ _
          exact hstep
    · have hskip : stepTrack onDisk st t = .ok (st, []) := by
        unfold stepTrack
        rw [if_neg (by simp [hext]), if_pos (by simp [hdisk])]
      refine ⟨?_, ?_, ?_⟩
      · intro hcc _
        rw [convCond, Bool.and_eq_true, Bool.and_eq_true] at hcc
        exact absurd hcc.1.2 hdisk
      · intro _
        exact ⟨st.playlists, by rw [hskip], hst⟩
      · intro hcc _
        rw [convCond, Bool.and_eq_true, Bool.and_eq_true] at hcc
        exact absurd hcc.1.2 hdisk
  · have hskip : stepTrack onDisk st t = .ok (st, []) :=
      stepTrack_skip onDisk st t hext
    refine ⟨?_, ?_, ?_⟩
    · intro hcc _
      rw [convCond, Bool.and_eq_true, Bool.and_eq_true] at hcc
      exact absurd (by simpa using hcc.1.1) hext
    · intro _
      exact ⟨st.playlists, by rw [hskip], hst⟩
    · intro hcc _
      rw [convCond, Bool.and_eq_true, Bool.and_eq_true] at hcc
      exact absurd (by simpa using hcc.1.1) hext

lemma foldStep_spec (e : Int) (P0 : List PlaylistNode)
    (hnd : (P0.map (fun pl => pl.name)).Nodup) (onDisk : List Char → Bool) :
    ∀ (ts : List Track) (st : TState) (f : Nat → List (List Char)),
    PState e P0 st.playlists f →
    (∀ t ∈ ts, lowId e t.trackID) →
    e + 1 ≤ st.currId →
    (∀ t ∈ ts, convCond onDisk P0 t = true → allFoundB P0 t.trackID 0 = true) →
    ∃ st', foldStep onDisk ts st = .ok st' ∧
      st'.currId = st.currId + (clonesFor onDisk P0 ts st.currId).length ∧
      st'.colTracks = st.colTracks ++ clonesFor onDisk P0 ts st.currId ∧
      st'.jobs = jobsFor onDisk P0 ts st.jobs ∧
      PState e P0 st'.playlists
        (fun j => f j ++ keysSpec onDisk P0 j ts st.currId) := by
  intro ts
  induction ts with
  | nil =>
    intro st f hst _ _ _
    refine ⟨st, rfl, by simp [clonesFor], by simp [clonesFor], rfl, ?_⟩
    apply PState_congr _ hst
    intro j
    simp [keysSpec]
  | cons t ts ih =>
    intro st f hst hlow hc hall
    have hspec := stepTrack_spec e P0 hnd onDisk st f t hst
      (hlow t (by simp)) hc
    by_cases hcc : convCond onDisk P0 t = true
    · have hAF := hall t (by simp) hcc
      obtain ⟨pls', hrun, hps⟩ := hspec.1 hcc hAF
      have hfold : foldStep onDisk (t :: ts) st =
          foldStep onDisk ts
            { currId := st.currId + 1
              colTracks := st.colTracks ++ [mkClone t st.currId (mp3PathOf t)]
              playlists := pls'
              jobs := dictSet (decodeLoc t.location) (mp3PathOf t) st.jobs } := by
        show (match stepTrack onDisk st t with
              | Except.error e => Except.error e
              | Except.ok (st', _) => foldStep onDisk ts st') = _
        rw [hrun]
      obtain ⟨st', hst', hid, hcol, hjobs, hpst⟩ :=
        ih { currId := st.currId + 1
             colTracks := st.colTracks ++ [mkClone t st.currId (mp3PathOf t)]
             playlists := pls'
             jobs := dictSet (decodeLoc t.location) (mp3PathOf t) st.jobs }
          (fun j => f j ++ (if feedsB P0 t.trackID 0 j then [intToStr st.currId] else []))
          hps (fun u hu => hlow u (by simp [hu]))
          (by show e + 1 ≤ st.currId + 1; omega)
          (fun u hu => hall u (by simp [hu]))
      refine ⟨st', hfold.trans hst', ?_, ?_, ?_, ?_⟩
      · rw [hid]
        show _ = st.currId + ((clonesFor onDisk P0 (t :: ts) st.currId).length : Int)
        rw [clonesFor]
        rw [if_pos hcc]
        simp only [List.length_cons]
        push_cast
        omega
      · rw [hcol]
        show _ = st.colTracks ++ clonesFor onDisk P0 (t :: ts) st.currId
        rw [clonesFor, if_pos hcc, List.append_assoc]
        rfl
      · rw [hjobs]
        show _ = jobsFor onDisk P0 (t :: ts) st.jobs
        rw [jobsFor, if_pos hcc]
      · apply PState_congr _ hpst
        intro j
        show (f j ++ _) ++ _ = f j ++ keysSpec onDisk P0 j (t :: ts) st.currId
        rw [keysSpec, if_pos hcc, List.append_assoc]
    · have hccf : convCond onDisk P0 t = false := by
        cases hx : convCond onDisk P0 t
        · rfl
        · exact absurd hx hcc
      obtain ⟨pls', hrun, hps⟩ := hspec.2.1 hccf
      have hfold : foldStep onDisk (t :: ts) st =
          foldStep onDisk ts { st with playlists := pls' } := by
        show (match stepTrack onDisk st t with
              | Except.error e => Except.error e
              | Except.ok (st', _) => foldStep onDisk ts st') = _
        rw [hrun]
      obtain ⟨st', hst', hid, hcol, hjobs, hpst⟩ :=
        ih { st with playlists := pls' } f hps
          (fun u hu => hlow u (by simp [hu])) hc
          (fun u hu => hall u (by simp [hu]))
      refine ⟨st', hfold.trans hst', ?_, ?_, ?_, ?_⟩
      · rw [hid]
        show _ = st.currId + ((clonesFor onDisk P0 (t :: ts) st.currId).length : Int)
        rw [clonesFor, if_neg (by simp [hccf])]
      · rw [hcol]
        show _ = st.colTracks ++ clonesFor onDisk P0 (t :: ts) st.currId
        rw [clonesFor, if_neg (by simp [hccf])]
      · rw [hjobs]
        show _ = jobsFor onDisk P0 (t :: ts) st.jobs
        rw [jobsFor, if_neg (by simp [hccf])]
      · apply PState_congr _ hpst
        intro j
        show f j ++ _ = f j ++ keysSpec onDisk P0 j (t :: ts) st.currId
        rw [keysSpec, if_neg (by simp [hccf])]

lemma allFoundFrom_false_full {P0 : List PlaylistNode} {origId : List Char} :
    ∀ (r i : Nat), allFoundFrom P0 origId r i = false →
      ∃ idx q, i ≤ idx ∧ P0[idx]? = some q ∧ q.tracks.contains origId = true ∧
        lfindIdx (fun x => x.name == q.name ++ mirrorSfx) P0 = none := by
  intro r
  induction r with
  | zero => intro i h; simp [allFoundFrom] at h
  | succ r ih =>
    intro i h
    rw [allFoundFrom] at h
    rcases Bool.and_eq_false_iff.mp h with hl | hr
    · rcases hq : P0[i]? with _ | q
      · rw [hq] at hl; simp at hl
      · rw [hq] at hl
        obtain ⟨h1, h2⟩ := Bool.or_eq_false_iff.mp hl
        refine ⟨i, q, le_refl _, hq, by simpa using h1, ?_⟩
        rcases hfind : lfindIdx (fun x => x.name == q.name ++ mirrorSfx) P0 with _ | j
        · exact hfind
        · rw [hfind] at h2
          simp at h2
    · obtain ⟨idx, q, hidx, rest⟩ := ih (i + 1) hr
      exact ⟨idx, q, by omega, rest⟩

lemma feedsFrom_of_exists {P0 : List PlaylistNode} {origId : List Char} :
    ∀ (r i idx j : Nat) (q' : PlaylistNode), i ≤ idx → idx < i + r →
      P0[idx]? = some q' → q'.tracks.contains origId = true →
      lfindIdx (fun x => x.name == q'.name ++ mirrorSfx) P0 = some j →
      feedsFrom P0 origId r i j = true := by
  intro r
  induction r with
  | zero => intro i idx j q' h1 h2 _ _ _; omega
  | succ r ih =>
    intro i idx j q' h1 h2 hq hc htar
    rw [feedsFrom]
    by_cases hii : idx = i
    · subst hii
      rw [hq, Bool.or_eq_true_iff]
      left
      show (q'.tracks.contains origId &&
        (lfindIdx (fun x => x.name == q'.name ++ mirrorSfx) P0 == some j)) = true
      rw [hc, htar]
      simp
    · rw [Bool.or_eq_true_iff]
      exact Or.inr (ih (i + 1) idx j q' (by omega) (by omega) hq hc htar)

lemma feedsB_eq_contains {P0 : List PlaylistNode}
    (hnd : (P0.map (fun pl => pl.name)).Nodup) {Q : PlaylistNode} {q j : Nat}
    (hq : P0[q]? = some Q)
    (hj : lfindIdx (fun r => r.name == Q.name ++ mirrorSfx) P0 = some j)
    (origId : List Char) :
    feedsB P0 origId 0 j = Q.tracks.contains origId := by
  cases hC : Q.tracks.contains origId
  · cases hf : feedsB P0 origId 0 j
    · rfl
    · exfalso
      obtain ⟨idx, _, q', hq', hc', htar'⟩ := feedsFrom_exists _ 0 j hf
      obtain ⟨a, haP, hap⟩ := lfindIdx_some _ P0 j hj
      obtain ⟨a', haP', hap'⟩ := lfindIdx_some _ P0 j htar'
      have haa : a = a' := by
        rw [haP] at haP'
        exact Option.some.inj haP'
      have hn1 : a.name = Q.name ++ mirrorSfx := by simpa using hap
      have hn2 : a.name = q'.name ++ mirrorSfx := by rw [haa]; simpa using hap'
      have hQq : Q.name = q'.name := List.append_cancel_right (hn1.symm.trans hn2)
      have hqidx : q = idx := by
        apply nodup_getElem?_inj hnd (x := Q.name)
        · rw [List.getElem?_map, hq]; rfl
        · rw [List.getElem?_map, hq', Option.map_some', hQq]
      rw [← hqidx, hq] at hq'
      have hQq' : Q = q' := Option.some.inj hq'
      rw [← hQq', hC] at hc'
      exact absurd hc' (by simp)
  · have hlt : q < P0.length := (List.getElem?_eq_some_iff.mp hq).1
    unfold feedsB
    exact feedsFrom_of_exists (P0.length - 0) 0 q j Q (by omega) (by omega) hq hC hj

lemma keysSpec_eq_keysForQ (onDisk : List Char → Bool) {P0 : List PlaylistNode}
    (hnd : (P0.map (fun pl => pl.name)).Nodup) {Q : PlaylistNode} {q j : Nat}
    (hq : P0[q]? = some Q)
    (hj : lfindIdx (fun r => r.name == Q.name ++ mirrorSfx) P0 = some j) :
    ∀ (ts : List Track) (c : Int),
      keysSpec onDisk P0 j ts c = keysForQ onDisk P0 Q ts c := by
  intro ts
  induction ts with
  | nil => intro c; rfl
  | cons t ts ih =>
    intro c
    rw [keysSpec, keysForQ, feedsB_eq_contains hnd hq hj t.trackID]
    by_cases hcc : convCond onDisk P0 t = true
    · rw [if_pos hcc, if_pos hcc, ih]
    · rw [if_neg hcc, if_neg hcc, ih]

lemma PState_init (e : Int) (P0 : List PlaylistNode) :
    PState e P0 P0 (fun _ => ([] : List (List Char))) := by
  refine ⟨rfl, fun j => ?_, fun j s hs => absurd hs (by simp)⟩
  cases h : P0[j]? with
  | none => rfl
  | some q => simp

lemma foldStep_ok_inv (e : Int) (P0 : List PlaylistNode)
    (hnd : (P0.map (fun pl => pl.name)).Nodup) (onDisk : List Char → Bool) :
    ∀ (ts : List Track) (st : TState) (f : Nat → List (List Char)) (st' : TState),
      PState e P0 st.playlists f →
      (∀ t ∈ ts, lowId e t.trackID) →
      e + 1 ≤ st.currId →
      foldStep onDisk ts st = .ok st' →
      ∀ t ∈ ts, convCond onDisk P0 t = true → allFoundB P0 t.trackID 0 = true := by
  intro ts
  induction ts with
  | nil =>
    intro st f st' _ _ _ _ t ht
    simp at ht
  | cons u ts ih =>
    intro st f st' hst hlow hc hrun t ht hcc
    have hspec := stepTrack_spec e P0 hnd onDisk st f u hst (hlow u (by simp)) hc
    by_cases hcu : convCond onDisk P0 u = true
    · by_cases hAFu : allFoundB P0 u.trackID 0 = true
      · obtain ⟨pls', hstep, hps⟩ := hspec.1 hcu hAFu
        rcases List.mem_cons.mp ht with rfl | ht'
        · exact hAFu
        · have hfold : foldStep onDisk (u :: ts) st =
              foldStep onDisk ts
                { currId := st.currId + 1
                  colTracks := st.colTracks ++ [mkClone u st.currId (mp3PathOf u)]
                  playlists := pls'
                  jobs := dictSet (decodeLoc u.location) (mp3PathOf u) st.jobs } := by
            show (match stepTrack onDisk st u with
                  | Except.error e => Except.error e
                  | Except.ok (st1, _) => foldStep onDisk ts st1) = _
            rw [hstep]
          rw [hfold] at hrun
          exact ih _ _ st' hps (fun v hv => hlow v (by simp [hv]))
            (by show e + 1 ≤ st.currId + 1; omega) hrun t ht' hcc
      · have hAFf : allFoundB P0 u.trackID 0 = false := by
          cases hx : allFoundB P0 u.trackID 0
          · rfl
          · exact absurd hx hAFu
        have herr := hspec.2.2 hcu hAFf
        have hfold : foldStep onDisk (u :: ts) st = .error () := by
          show (match stepTrack onDisk st u with
                | Except.error e => Except.error e
                | Except.ok (st1, _) => foldStep onDisk ts st1) = _
          rw [herr]
        rw [hfold] at hrun
        exact absurd hrun (by simp)
    · have hcf : convCond onDisk P0 u = false := by
        cases hx : convCond onDisk P0 u
        · rfl
        · exact absurd hx hcu
      obtain ⟨pls', hstep, hps⟩ := hspec.2.1 hcf
      rcases List.mem_cons.mp ht with rfl | ht'
      · exact absurd hcc hcu
      · have hfold : foldStep onDisk (u :: ts) st =
            foldStep onDisk ts { st with playlists := pls' } := by
          show (match stepTrack onDisk st u with
                | Except.error e => Except.error e
                | Except.ok (st1, _) => foldStep onDisk ts st1) = _
          rw [hstep]
        rw [hfold] at hrun
        exact ih { st with playlists := pls' } f st' hps
          (fun v hv => hlow v (by simp [hv])) hc hrun t ht' hcc

lemma foldl_mirror_names (ns : List (List Char)) :
    ∀ (L : List (List Char)) (acc : List PlaylistNode),
      ∃ qs : List (List Char),
        qs.Sublist L ∧
        (L.foldl (mirrorStep ns) acc).map (fun pl => pl.name) =
          acc.map (fun pl => pl.name) ++ qs.map (fun q => q ++ mirrorSfx) ∧
        ∀ q ∈ qs, ns.contains (q ++ mirrorSfx) = false := by
  intro L
  induction L with
  | nil =>
    intro acc
    exact ⟨[], List.nil_sublist _, by simp, by simp⟩
  | cons p L ih =>
    intro acc
    by_cases h1 : lendsWith p mirrorSfx = true
    · rw [List.foldl_cons, mirrorStep_skip_ends _ _ _ h1]
      obtain ⟨qs, hsub, heq, hns⟩ := ih acc
      exact ⟨qs, hsub.cons _, heq, hns⟩
    · by_cases h2 : ns.contains (p ++ mirrorSfx) = true
      · rw [List.foldl_cons, mirrorStep_skip_present _ _ _ (by simpa using h1) h2]
        obtain ⟨qs, hsub, heq, hns⟩ := ih acc
        exact ⟨qs, hsub.cons _, heq, hns⟩
      · rcases hfind : acc.find? (fun q2 => q2.name == p) with _ | pl
        · have hstep : mirrorStep ns acc p = acc := by
            unfold mirrorStep
            rw [if_neg (by simpa using h1), if_neg (by simpa using h2), hfind]
          rw [List.foldl_cons, hstep]
          obtain ⟨qs, hsub, heq, hns⟩ := ih acc
          exact ⟨qs, hsub.cons _, heq, hns⟩
        · rw [List.foldl_cons,
            mirrorStep_create _ _ _ pl (by simpa using h1) (by simpa using h2) hfind]
          obtain ⟨qs, hsub, heq, hns⟩ := ih (acc ++ [mkMirror (p ++ mirrorSfx) pl])
          refine ⟨p :: qs, hsub.cons₂ _, ?_, ?_⟩
          · rw [heq, List.map_append]
            simp [mkMirror, List.append_assoc]
          · intro q hq
            rcases List.mem_cons.mp hq with rfl | hq'
            · cases hx : ns.contains (q ++ mirrorSfx)
              · rfl
              · exact absurd hx h2
            · exact hns q hq'

lemma mirrorPass_names_nodup (pls : List PlaylistNode)
    (hnd : (pls.map (fun pl => pl.name)).Nodup) :
    ((mirrorPass pls).map (fun pl => pl.name)).Nodup := by
  unfold mirrorPass
  obtain ⟨qs, hsub, heq, hns⟩ := foldl_mirror_names (pls.map (fun pl => pl.name))
    (pls.map (fun pl => pl.name)) pls
  rw [heq, List.nodup_append]
  refine ⟨hnd, ?_, ?_⟩
  · exact List.Nodup.map (fun a b hab => List.append_cancel_right hab) (hsub.nodup hnd)
  · intro a ha hb
    obtain ⟨q, hq, rfl⟩ := List.mem_map.mp hb
    have hfalse := hns q hq
    rw [(contains_iff_mem (pls.map (fun pl => pl.name)) (q ++ mirrorSfx)).mpr ha] at hfalse
    exact absurd hfalse (by simp)

/-- C1: the claim as written is **false** for its "non-mirror playlist"
side condition, and is repaired by dropping that qualifier.  The script's
membership scan (lines 164–171) runs over `pNodes = root[2][0].findall('*')`
taken at line 135, *after* the mirror pass, so it sees every playlist
node — including pre-existing nodes whose names already end in `_MP3`.
A track referenced only by such a mirror playlist is still converted.
The amended statement: under the data-model preconditions (every track
id is the canonical decimal of an integer in `[1, entries]`, playlist
names are unique), a successful run appends exactly the clones of, and
records exactly the jobs for, those tracks satisfying `convCond` — the
`.flac` extension test, the on-disk test, and membership in at least one
playlist of the *post-mirror-pass* list (mirror or not); a track failing
any conjunct yields no job and no new record. -/
theorem C1_conversionEligibility (onDisk : List Char → Bool) (d d' : Doc)
    (jobs : List (List Char × List Char))
    (Hids : ∀ t ∈ d.colTracks, lowId d.colEntries t.trackID)
    (Hnames : (d.playlists.map (fun pl => pl.name)).Nodup)
    (h : runMain onDisk d = .ok (d', jobs)) :
    d'.colTracks = d.colTracks ++
      clonesFor onDisk (mirrorPass d.playlists) d.colTracks (d.colEntries + 1) ∧
    jobs = jobsFor onDisk (mirrorPass d.playlists) d.colTracks [] := by
  obtain ⟨st, hfold, _, hcol, _, hjobs⟩ := runMain_ok_elim onDisk d d' jobs h
  have hnd := mirrorPass_names_nodup d.playlists Hnames
  have hinit : PState d.colEntries (mirrorPass d.playlists) (initState d).playlists
      (fun _ => []) := PState_init _ _
  have hc : d.colEntries + 1 ≤ (initState d).currId := le_refl _
  have hall := foldStep_ok_inv d.colEntries _ hnd onDisk d.colTracks (initState d)
    (fun _ => []) st hinit Hids hc hfold
  obtain ⟨st2, hfold2, _, hcol2, hjobs2, _⟩ := foldStep_spec d.colEntries _ hnd onDisk
    d.colTracks (initState d) (fun _ => []) hinit Hids hc hall
  have hst2 : st2 = st := by
    rw [hfold] at hfold2
    exact (Except.ok.inj hfold2).symm
  subst hst2
  exact ⟨hcol.trans hcol2, hjobs.trans hjobs2⟩

/-- C1, counterexample to the original wording: in `cexDoc` the only
playlist whose name does not end in `_MP3` references nothing (there is
none: both playlists are mirror-named), so no non-mirror playlist
references track `1`; yet the run converts it — the output collection
has two tracks and one conversion job. -/
theorem C1_counterexample :
    (∀ pl ∈ cexDoc.playlists,
      lendsWith pl.name mirrorSfx = false → pl.tracks.contains "1".data = false) ∧
    (∀ t ∈ cexDoc.colTracks, t.trackID = "1".data) ∧
    cexDoc.colTracks.length = 1 ∧
    resTrackCount (runMain cexDisk cexDoc) = 2 ∧
    resJobCount (runMain cexDisk cexDoc) = 1 := by
  decide

/-- Witness for the amended C1 on the concrete house scenario. -/
theorem C1_witness :
    houseOut.colTracks = houseDoc.colTracks ++
      clonesFor houseDisk (mirrorPass houseDoc.playlists) houseDoc.colTracks
        (houseDoc.colEntries + 1) ∧
    houseJobs = jobsFor houseDisk (mirrorPass houseDoc.playlists) houseDoc.colTracks [] := by
  refine C1_conversionEligibility houseDisk houseDoc houseOut houseJobs ?_ (by decide) (by decide)
  intro t ht
  have htq : t = houseTrack := by simpa [houseDoc] using ht
  rw [htq]
  exact ⟨1, by decide, by decide, by decide⟩

/-- C2: for every converted track, exactly one new entry keyed by the
track's newly allocated id (as a decimal string) is appended to the
mirror of each playlist that referenced the original id, in collection
order, and mirrors of non-referencing playlists receive nothing.
Formally: under the data-model preconditions, for any node `Q` of the
post-mirror-pass playlist list and the index `j` its name-lookup target
`Q.name ++ "_MP3"` resolves to, a successful run leaves node `j` equal
to its pre-pass value with exactly `keysForQ … Q …` appended — one key
`intToStr c` (the id allocated to that track) per converted track whose
id `Q` references, in track order, and nothing for the others. -/
theorem C2_entryRouting (onDisk : List Char → Bool) (d d' : Doc)
    (jobs : List (List Char × List Char))
    (Hids : ∀ t ∈ d.colTracks, lowId d.colEntries t.trackID)
    (Hnames : (d.playlists.map (fun pl => pl.name)).Nodup)
    (h : runMain onDisk d = .ok (d', jobs))
    (Q : PlaylistNode) (q j : Nat)
    (hq : (mirrorPass d.playlists)[q]? = some Q)
    (hj : lfindIdx (fun r => r.name == Q.name ++ mirrorSfx) (mirrorPass d.playlists)
      = some j) :
    d'.playlists[j]? = ((mirrorPass d.playlists)[j]?).map
      (fun r => { r with tracks := r.tracks ++
        (keysForQ onDisk (mirrorPass d.playlists) Q d.colTracks (d.colEntries + 1)) }) := by
  obtain ⟨st, hfold, _, _, hpl, _⟩ := runMain_ok_elim onDisk d d' jobs h
  have hnd := mirrorPass_names_nodup d.playlists Hnames
  have hinit : PState d.colEntries (mirrorPass d.playlists) (initState d).playlists
      (fun _ => []) := PState_init _ _
  have hc : d.colEntries + 1 ≤ (initState d).currId := le_refl _
  have hall := foldStep_ok_inv d.colEntries _ hnd onDisk d.colTracks (initState d)
    (fun _ => []) st hinit Hids hc hfold
  obtain ⟨st2, hfold2, _, _, _, hpst⟩ := foldStep_spec d.colEntries _ hnd onDisk
    d.colTracks (initState d) (fun _ => []) hinit Hids hc hall
  have hst2 : st2 = st := by
    rw [hfold] at hfold2
    exact (Except.ok.inj hfold2).symm
  subst hst2
  have hP := hpst.2.1 j
  rw [hpl, hP]
  congr 1
  funext r
  show { r with tracks := r.tracks ++ ([] ++
      (keysSpec onDisk (mirrorPass d.playlists) j d.colTracks ((initState d).currId))) } = _
  rw [List.nil_append, keysSpec_eq_keysForQ onDisk hnd hq hj d.colTracks]
  rfl

/-- Witness for C2 on the concrete house scenario: the mirror
`House_MP3` (index 1 after the mirror pass) of the playlist `House`
(index 0) receives exactly the key `"2"` of the converted track. -/
theorem C2_witness :
    houseOut.playlists[1]? = ((mirrorPass houseDoc.playlists)[1]?).map
      (fun r => { r with tracks := r.tracks ++
        (keysForQ houseDisk (mirrorPass houseDoc.playlists)
          ⟨"House".data, some "1".data, some "7".data, some "1".data, ["1".data]⟩
          houseDoc.colTracks (houseDoc.colEntries + 1)) }) := by
  refine C2_entryRouting houseDisk houseDoc houseOut houseJobs ?_ (by decide) (by decide)
    ⟨"House".data, some "1".data, some "7".data, some "1".data, ["1".data]⟩ 0 1
    (by decide) (by decide)
  intro t ht
  have htq : t = houseTrack := by simpa [houseDoc] using ht
  rw [htq]
  exact ⟨1, by decide, by decide, by decide⟩

/-- C10: the routing lookup `playlists.find("*/[@Name='" + pname + "_MP3']")`
at line 177 is dereferenced without a `None` check at line 178.  Under
the data-model preconditions and the stated precondition — every
playlist that references an eligible (FLAC-named, on-disk) track's id is
a non-mirror playlist — the mirror-creation pass guarantees a node named
`pname ++ "_MP3"` exists for every such playlist, so the lookup always
succeeds and the whole run completes without the null-dereference
error. -/
theorem C10_mirrorLookupTotal (onDisk : List Char → Bool) (d : Doc)
    (Hids : ∀ t ∈ d.colTracks, lowId d.colEntries t.trackID)
    (Hnames : (d.playlists.map (fun pl => pl.name)).Nodup)
    (Href : ∀ t ∈ d.colTracks,
      lowerStr (splitextExt t.location) = ".flac".data →
      onDisk (decodeLoc t.location) = true →
      ∀ pl ∈ mirrorPass d.playlists, pl.tracks.contains t.trackID = true →
        lendsWith pl.name mirrorSfx = false) :
    isOkE (runMain onDisk d) = true := by
  have hnd := mirrorPass_names_nodup d.playlists Hnames
  have hall : ∀ t ∈ d.colTracks, convCond onDisk (mirrorPass d.playlists) t = true →
      allFoundB (mirrorPass d.playlists) t.trackID 0 = true := by
    intro t ht hcc
    rw [convCond, Bool.and_eq_true, Bool.and_eq_true] at hcc
    cases hAF : allFoundB (mirrorPass d.playlists) t.trackID 0
    · exfalso
      unfold allFoundB at hAF
      obtain ⟨idx, pl, _, hq, hcont, hfindnone⟩ :=
        allFoundFrom_false_full _ 0 hAF
      have hplmem : pl ∈ mirrorPass d.playlists := by
        obtain ⟨hlt, hget⟩ := List.getElem?_eq_some_iff.mp hq
        exact hget ▸ List.getElem_mem hlt
      have hend := Href t ht (by simpa using hcc.1.1) hcc.1.2 pl hplmem hcont
      rcases mirrorPass_elem d.playlists pl hplmem with horig | hmir
      · have hnamemem : pl.name ∈ d.playlists.map (fun x => x.name) :=
          List.mem_map.mpr ⟨pl, horig, rfl⟩
        have hmc := mirror_complete d.playlists pl.name hnamemem hend
        obtain ⟨r, hr, hrn⟩ := List.mem_map.mp hmc
        have hsome : (lfindIdx (fun x => x.name == pl.name ++ mirrorSfx)
            (mirrorPass d.playlists)).isSome = true :=
          lfindIdx_isSome _ _ ⟨r, hr, by simp [hrn]⟩
        rw [hfindnone] at hsome
        exact absurd hsome (by simp)
      · rw [hend] at hmir
        exact absurd hmir (by simp)
    · rfl
  have hinit : PState d.colEntries (mirrorPass d.playlists) (initState d).playlists
      (fun _ => []) := PState_init _ _
  obtain ⟨st2, hfold2, _⟩ := foldStep_spec d.colEntries _ hnd onDisk
    d.colTracks (initState d) (fun _ => []) hinit Hids (le_refl _) hall
  rw [runMain_eq_fold, hfold2]
  rfl

/-- Witness for C10 on the concrete house scenario. -/
theorem C10_witness : isOkE (runMain houseDisk houseDoc) = true := by
  refine C10_mirrorLookupTotal houseDisk houseDoc ?_ (by decide) (by decide)
  intro t ht
  have htq : t = houseTrack := by simpa [houseDoc] using ht
  rw [htq]
  exact ⟨1, by decide, by decide, by decide⟩
